import Mathlib

/-!
Verification of the polyphonic voice-allocation core of the synthualizer
repository, `SubtractiveEngine` (6-voice subtractive synthesis engine) and
its `Voice` records.

The development has two layers.

Layer 1 (engine layer, over `ℚ`): a shallow embedding of the engine state
and of the operations `noteOn`, `noteOff`, `allocateVoice`,
`startVoiceOscillator`, `stopVoiceOscillator`, `triggerRelease` (its effect
on the oscillator and the release-completion timer), `updateParameter`, and
the release-completion `setTimeout` callbacks. `AudioContext.currentTime`
is passed explicitly as a `now : ℚ` argument; event sequences drive a step
function, so reachable states are exactly the results of `runE`.
The per-voice gain-automation calls of `triggerAttack`/`triggerRelease`
act only on the voice gain `AudioParam` and feed nothing back into this
state, so they are modelled separately in layer 2.

Layer 2 (automation layer, over `ℝ`): the Web Audio `AudioParam`
automation-event semantics (`setValueAtTime`, `linearRampToValueAtTime`,
`exponentialRampToValueAtTime`, `cancelScheduledValues`, and the computed
`.value` read), together with the event lists that `triggerAttack` and
`triggerRelease` schedule on a voice gain parameter.
-/

/-! ## Layer 1: engine state -/

/-- Pool capacity, `MAX_VOICES = 6` in `SubtractiveEngine`. -/
def MAX_VOICES : Nat := 6

/-- One voice record of the pool (the `Voice` interface): identity, active
flag, assigned frequency (`null` encoded as `none`), the time the note was
started, and the voice's current oscillator, kept as an index into the
engine's registry of every oscillator node ever created (the source holds
an object reference; nodes have stable identity, so an index into a
creation-ordered registry is an equivalent encoding). -/
structure Voice where
  id : Nat
  active : Bool
  frequency : Option ℚ
  noteStartTime : ℚ
  oscillator : Option Nat
  deriving DecidableEq, Repr

/-- An oscillator node: its waveform type and frequency, when it was
started, the time passed to `stop` (if any), and whether it is still
connected to its voice gain stage. -/
structure OscNode where
  oscType : String
  oscFreq : ℚ
  startedAt : ℚ
  stopAt : Option ℚ
  connected : Bool
  deriving DecidableEq, Repr

/-- The value argument of `updateParameter(param: string, value: number |
string)`. -/
inductive PVal
  | num (v : ℚ)
  | str (s : String)
  deriving DecidableEq, Repr

/-- The engine state: the voice pool, the `activeNotes` map (a JS `Map`
from frequency to voice, encoded as an insertion-ordered association list
from frequency to voice id), the shared parameters, the scheduled filter
ramps, the oscillator-node registry, the pending release-completion
`setTimeout` callbacks (voice id and fire time), and the `console.warn`
log. -/
structure EngineState where
  voices : List Voice
  activeNotes : List (ℚ × Nat)
  currentWaveform : String
  attackTime : ℚ
  decayTime : ℚ
  sustainLevel : ℚ
  releaseTime : ℚ
  filterType : String
  filterFreqRamps : List (ℚ × ℚ)
  filterQRamps : List (ℚ × ℚ)
  oscNodes : List OscNode
  pendingTimers : List (Nat × ℚ)
  warnings : List String
  deriving DecidableEq, Repr

/-- JS `Map.get`: the value stored at key `k`, if present. -/
def mapGet (l : List (ℚ × Nat)) (k : ℚ) : Option Nat :=
  (l.find? (fun p => p.1 = k)).map (fun p => p.2)

/-- JS `Map.set`: replace the value at key `k` if present (keys stay
unique, which the engine maintains and we prove as an invariant),
otherwise append the new entry. -/
def mapSet (l : List (ℚ × Nat)) (k : ℚ) (v : Nat) : List (ℚ × Nat) :=
  if l.any (fun p => p.1 = k) then l.map (fun p => if p.1 = k then (k, v) else p)
  else l ++ [(k, v)]

/-- JS `Map.delete`: remove the entry at key `k`. -/
def mapDelete (l : List (ℚ × Nat)) (k : ℚ) : List (ℚ × Nat) :=
  l.filter (fun p => p.1 ≠ k)

/-- Indexed in-place map over a list (used for updating one node of the
oscillator registry, and for the waveform rebroadcast over it). -/
def mapWithIndexFrom {a : Type} (i : Nat) (f : Nat → a → a) : List a → List a
  | [] => []
  | x :: xs => f i x :: mapWithIndexFrom (i + 1) f xs

/-- Indexed in-place map starting at index 0. -/
def mapWithIndex {a : Type} (f : Nat → a → a) (l : List a) : List a :=
  mapWithIndexFrom 0 f l

/-- Update the (unique) voice with id `vid` in place. The source mutates
the record through a reference; ids are pairwise distinct, so updating by
id is the same operation. -/
def modVoice (s : EngineState) (vid : Nat) (f : Voice → Voice) : EngineState :=
  { s with voices := s.voices.map (fun v => if v.id = vid then f v else v) }

/-- Look up a voice of the pool by id. -/
def getVoice (s : EngineState) (vid : Nat) : Option Voice :=
  s.voices.find? (fun v => v.id = vid)

/-- The source operation `createVoice(id)`: a fresh inactive voice with no oscillator (its gain
node is created with value 0; the gain automation lives in layer 2). -/
def createVoice (i : Nat) : Voice :=
  { id := i, active := false, frequency := none, noteStartTime := 0, oscillator := none }

/-- The `SubtractiveEngine` constructor: default parameter values and a
pool of `n` voices built by `createVoice(0) .. createVoice(n-1)` (the
source uses `n = MAX_VOICES = 6`; the pool-construction loop itself is
capacity-generic). -/
def initEngine (n : Nat) : EngineState :=
  { voices := (List.range n).map createVoice
  , activeNotes := []
  , currentWaveform := "sawtooth"
  , attackTime := 0.01
  , decayTime := 0.1
  , sustainLevel := 0.7
  , releaseTime := 0.3
  , filterType := "lowpass"
  , filterFreqRamps := []
  , filterQRamps := []
  , oscNodes := []
  , pendingTimers := []
  , warnings := [] }

/-- The source operation `startVoiceOscillator(voice, frequency)`: create an oscillator with the
current waveform at `frequency`, connect it to the voice gain, start it at
`currentTime`; the voice now references the fresh node. -/
def startVoiceOscillatorQ (s : EngineState) (now : ℚ) (vid : Nat) (frequency : ℚ) : EngineState :=
  let node : OscNode :=
    { oscType := s.currentWaveform, oscFreq := frequency
    , startedAt := now, stopAt := none, connected := true }
  let s1 := modVoice s vid (fun v => { v with oscillator := some s.oscNodes.length })
  { s1 with oscNodes := s1.oscNodes ++ [node] }

/-- The source operation `stopVoiceOscillator(voice, when)`: if the voice has an oscillator,
schedule `oscillator.stop(when)`, call `oscillator.disconnect()`
(immediate, not scheduled), and null the reference. -/
def stopVoiceOscillatorQ (s : EngineState) (vid : Nat) (when : ℚ) : EngineState :=
  match getVoice s vid with
  | none => s
  | some v =>
    match v.oscillator with
    | none => s
    | some oi =>
      let s1 := { s with
        oscNodes := mapWithIndex
          (fun j n => if j = oi then { n with stopAt := some when, connected := false } else n)
          s.oscNodes }
      modVoice s1 vid (fun w => { w with oscillator := none })

/-- The layer-1 effect of `triggerRelease(voice)`: stop the oscillator at
`now + releaseTime` and schedule the `setTimeout` callback that will mark
the voice inactive after `releaseTime * 1000 + 100` milliseconds, i.e. at
time `now + releaseTime + 0.1`. The gain-automation calls it also makes
are layer 2 (`triggerReleaseEvents`). -/
def triggerReleaseQ (s : EngineState) (now : ℚ) (vid : Nat) : EngineState :=
  let s1 := stopVoiceOscillatorQ s vid (now + s.releaseTime)
  { s1 with pendingTimers := s1.pendingTimers ++ [(vid, now + s.releaseTime + 0.1)] }

/-- The `voices.reduce` of `allocateVoice`: keep the accumulator unless the
current voice started strictly earlier, starting from the first voice of
the pool. -/
def selectOldest (v0 : Voice) (vs : List Voice) : Voice :=
  vs.foldl (fun oldest current =>
    if current.noteStartTime < oldest.noteStartTime then current else oldest) v0

/-- Lines 202-206 of `allocateVoice`, run on the stolen voice before it is
handed out: if it holds a frequency, delete that frequency from
`activeNotes` and `triggerRelease` the voice. -/
def stealFrom (s : EngineState) (now : ℚ) (oldestVoice : Voice) : EngineState :=
  match oldestVoice.frequency with
  | some oldFreq =>
      triggerReleaseQ { s with activeNotes := mapDelete s.activeNotes oldFreq } now oldestVoice.id
  | none => s

/-- The source operation `allocateVoice()`: first free (`!active`) voice in pool order if any;
otherwise steal the oldest voice (`selectOldest`, evaluated once in the
source; it is pure, so naming it twice below is the same value). Returns
the updated state and the chosen voice id; `none` only for an empty pool,
which the engine never creates (the JS `reduce` would throw there). -/
def allocateVoiceQ (s : EngineState) (now : ℚ) : Option (EngineState × Nat) :=
  match s.voices.find? (fun v => !v.active) with
  | some freeVoice => some (s, freeVoice.id)
  | none =>
    match s.voices with
    | [] => none
    | v0 :: rest =>
        some (stealFrom s now (selectOldest v0 rest), (selectOldest v0 rest).id)

/-- Lines 231-234 of `noteOn`: mark the allocated voice active, assign the
new frequency, stamp the start time. -/
def noteOnSetup (s : EngineState) (now frequency : ℚ) (vid : Nat) : EngineState :=
  modVoice s vid (fun v => { v with active := true, frequency := some frequency, noteStartTime := now })

/-- Lines 218-226 of `noteOn` (retrigger path): the frequency is already in
`activeNotes`, so stop that voice's oscillator, start a fresh one, restamp
`noteStartTime`; the new attack it then triggers is layer 2. -/
def noteOnRetrigger (s : EngineState) (now frequency : ℚ) (vid : Nat) : EngineState :=
  modVoice (startVoiceOscillatorQ (stopVoiceOscillatorQ s vid now) now vid frequency)
    vid (fun v => { v with noteStartTime := now })

/-- Lines 231-239 of `noteOn` (fresh path, after allocation): set the voice
up, start its oscillator, insert the frequency into `activeNotes`; the
`triggerAttack` it then performs is layer 2. -/
def noteOnFreshAssign (s1 : EngineState) (now frequency : ℚ) (vid : Nat) : EngineState :=
  let s3 := startVoiceOscillatorQ (noteOnSetup s1 now frequency vid) now vid frequency
  { s3 with activeNotes := mapSet s3.activeNotes frequency vid }

/-- The source operation `noteOn(frequency, velocity)`: retrigger if the frequency is already in
`activeNotes`, otherwise allocate (free or stolen) and assign.
`velocity` only scales the layer-2 gain envelope. -/
def noteOnQ (s : EngineState) (now frequency velocity : ℚ) : EngineState :=
  match mapGet s.activeNotes frequency with
  | some vid => noteOnRetrigger s now frequency vid
  | none =>
      match allocateVoiceQ s now with
      | none => s
      | some (s1, vid) => noteOnFreshAssign s1 now frequency vid

/-- The source operation `noteOff(frequency)`: no-op when the frequency is not playing;
otherwise delete it from `activeNotes` and `triggerRelease` the voice. -/
def noteOffQ (s : EngineState) (now frequency : ℚ) : EngineState :=
  match mapGet s.activeNotes frequency with
  | none => s
  | some vid =>
      triggerReleaseQ { s with activeNotes := mapDelete s.activeNotes frequency } now vid

/-- Completion of the `k`-th pending release `setTimeout`: the callback
sets `voice.active = false` and `voice.frequency = null` (and nothing
else: in particular it does not touch `activeNotes`). -/
def fireTimer (s : EngineState) (k : Nat) : EngineState :=
  match s.pendingTimers[k]? with
  | none => s
  | some (vid, _) =>
      let s1 := modVoice s vid (fun v => { v with active := false, frequency := none })
      { s1 with pendingTimers := s1.pendingTimers.eraseIdx k }

/-- The source operation `updateParameter(param, value)`: dispatch on the parameter name;
filter changes are 50 ms ramps, waveform is rebroadcast to every voice's
current oscillator, ADSR values are clamped, and an unknown name is only
logged with `console.warn`. The TS casts (`value as number`, `value as
string`) reflect that each recognized name is called with one payload
type; a payload of the other variant is left as a no-op here (no caller
produces one). -/
def updateParameterQ (s : EngineState) (now : ℚ) (param : String) (value : PVal) : EngineState :=
  let rampTime : ℚ := 0.05
  match param with
  | "cutoff" =>
      match value with
      | .num v => { s with filterFreqRamps := s.filterFreqRamps ++ [(v, now + rampTime)] }
      | .str _ => s
  | "resonance" =>
      match value with
      | .num v => { s with filterQRamps := s.filterQRamps ++ [(v, now + rampTime)] }
      | .str _ => s
  | "waveform" =>
      match value with
      | .str w =>
          { s with
              currentWaveform := w,
              oscNodes := mapWithIndex
                (fun j n => if s.voices.any (fun v => v.oscillator = some j)
                            then { n with oscType := w } else n) s.oscNodes }
      | .num _ => s
  | "filterType" =>
      match value with
      | .str ft => { s with filterType := ft }
      | .num _ => s
  | "attack" =>
      match value with
      | .num v => { s with attackTime := max 0 (min 2 v) }
      | .str _ => s
  | "decay" =>
      match value with
      | .num v => { s with decayTime := max 0 (min 2 v) }
      | .str _ => s
  | "sustain" =>
      match value with
      | .num v => { s with sustainLevel := max 0 (min 1 v) }
      | .str _ => s
  | "release" =>
      match value with
      | .num v => { s with releaseTime := max 0 (min 5 v) }
      | .str _ => s
  | _ => { s with warnings := s.warnings ++ ["Unknown parameter: " ++ param] }

/-- The source operation `getActiveVoiceCount()`: the number of voices with `active = true`. -/
def getActiveVoiceCount (s : EngineState) : Nat :=
  (s.voices.filter (fun v => v.active)).length

/-- The source operation `getIsPlaying()`: whether any note is in `activeNotes`. -/
def getIsPlaying (s : EngineState) : Bool :=
  s.activeNotes.length > 0

/-- An externally triggered engine transition: a `noteOn` or `noteOff`
call at clock time `now`, the completion of the `k`-th pending release
timer, or an `updateParameter` call. -/
inductive SynthEvent
  | noteOn (now frequency velocity : ℚ)
  | noteOff (now frequency : ℚ)
  | releaseTimer (k : Nat)
  | setParam (now : ℚ) (param : String) (value : PVal)
  deriving DecidableEq, Repr

/-- One engine transition. -/
def stepE (s : EngineState) (e : SynthEvent) : EngineState :=
  match e with
  | .noteOn now f vel => noteOnQ s now f vel
  | .noteOff now f => noteOffQ s now f
  | .releaseTimer k => fireTimer s k
  | .setParam now p v => updateParameterQ s now p v

/-- Run a sequence of engine transitions. Reachable states of the engine
are exactly `runE (initEngine MAX_VOICES) evs`. -/
def runE (s : EngineState) (evs : List SynthEvent) : EngineState :=
  evs.foldl stepE s

/-! ## Predicates used by the claims -/

/-- At most one voice is mapped to any given frequency: no two entries of
`activeNotes` share a key. -/
def atMostOneVoicePerFreq (s : EngineState) : Prop :=
  (s.activeNotes.map (fun p => p.1)).Nodup

/-- A voice's `frequency` is non-null exactly when some index entry points
to that voice. -/
def freqNonNullIffIndexed (s : EngineState) : Prop :=
  ∀ v ∈ s.voices, (v.frequency ≠ none ↔ ∃ p ∈ s.activeNotes, p.2 = v.id)

/-- The full frequency-index invariant asserted by the specification for
`activeNotes`. -/
def indexConsistencyClaim (s : EngineState) : Prop :=
  atMostOneVoicePerFreq s ∧ freqNonNullIffIndexed s

/-- Every index entry points at a pool voice that is active and holds
exactly the entry's frequency. -/
def entryConsistent (s : EngineState) : Prop :=
  ∀ p ∈ s.activeNotes, ∃ v ∈ s.voices, v.id = p.2 ∧ v.active = true ∧ v.frequency = some p.1

/-- The pool lists its voices in strictly increasing id order (true of the
constructed pool and preserved forever). -/
def idsStrictMono (s : EngineState) : Prop :=
  List.Pairwise (fun a b => a.id < b.id) s.voices

/-- No voice is referenced by two index entries. -/
def noVoiceTwice (l : List (ℚ × Nat)) : Prop :=
  l.Pairwise (fun a b => a.2 ≠ b.2)

/-- An event sequence without release-timer completions (all of its events
are engine calls). -/
def noTimers (evs : List SynthEvent) : Prop :=
  ∀ k, SynthEvent.releaseTimer k ∉ evs

/-- The ADSR clamping ranges of `updateParameter`: attack and decay in
[0, 2], sustain in [0, 1], release in [0, 5]. -/
def adsrInRange (s : EngineState) : Prop :=
  (0 ≤ s.attackTime ∧ s.attackTime ≤ 2) ∧
  (0 ≤ s.decayTime ∧ s.decayTime ≤ 2) ∧
  (0 ≤ s.sustainLevel ∧ s.sustainLevel ≤ 1) ∧
  (0 ≤ s.releaseTime ∧ s.releaseTime ≤ 5)

/-! ## Layer 2: Web Audio gain-automation semantics

The voice gain `AudioParam` receives automation events from
`triggerAttack` and `triggerRelease`. Values are real numbers because
`exponentialRampToValueAtTime` interpolates with real powers; the
renderer's curve evaluation is mathematical semantics of the browser, so
these definitions are noncomputable. Times and values the engine itself
computes are ordinary field arithmetic. -/

noncomputable section

/-- One scheduled automation event of an `AudioParam`: `setValueAtTime`,
`linearRampToValueAtTime` or `exponentialRampToValueAtTime`, with its
target value and its event time (for ramps, the end time). -/
inductive AEvent
  | setValue (v : ℝ) (t : ℝ)
  | linRamp (v : ℝ) (t : ℝ)
  | expRamp (v : ℝ) (t : ℝ)

/-- The event time of an automation event. -/
def AEvent.time : AEvent → ℝ
  | .setValue _ t => t
  | .linRamp _ t => t
  | .expRamp _ t => t

/-- The source operation `cancelScheduledValues(t)`: removes every event whose time is at or
after `t`. -/
def cancelScheduled (events : List AEvent) (t : ℝ) : List AEvent :=
  events.filter (fun e => e.time < t)

/-- The computed value of the automation timeline at time `t`, starting
from value `v0` anchored at time `t0`: a `setValueAtTime` holds its value
from its time on; a linear ramp interpolates linearly from the previous
event's value and time; an exponential ramp interpolates
`v0 * (v1 / v0) ^ ((t - t0) / (t1 - t0))`; after the last event the last
value holds. Event lists are built by the engine in nondecreasing time
order. -/
def valueFrom (v0 t0 : ℝ) : List AEvent → ℝ → ℝ
  | [], _ => v0
  | .setValue v t1 :: rest, t =>
      if t < t1 then v0 else valueFrom v t1 rest t
  | .linRamp v t1 :: rest, t =>
      if t < t1 then (if t ≤ t0 then v0 else v0 + (v - v0) * (t - t0) / (t1 - t0))
      else valueFrom v t1 rest t
  | .expRamp v t1 :: rest, t =>
      if t < t1 then (if t ≤ t0 then v0 else v0 * (v / v0) ^ ((t - t0) / (t1 - t0)))
      else valueFrom v t1 rest t

/-- The computed `.value` of a voice gain param at time `t` (the gain node
is created with value 0 before any event). -/
def paramValue (events : List AEvent) (t : ℝ) : ℝ :=
  valueFrom 0 0 events t

/-- The gain automation scheduled by `triggerAttack(voice, velocity)` at
time `now`: peak gain is `velocity * 0.5 / MAX_VOICES`, sustain gain is
`max(peak * sustainLevel, 0.001)`; cancel pending automation, anchor 0 at
`now`, ramp linearly to the peak over `attackTime`; then, only if
`decayTime > 0.001`, ramp to the sustain gain over `decayTime` —
exponentially if `sustainGain ≥ 0.01`, linearly otherwise. -/
def triggerAttackEvents (g : List AEvent) (now velocity attackTime decayTime sustainLevel : ℝ) :
    List AEvent :=
  let peakGain := velocity * 0.5 / (MAX_VOICES : ℝ)
  let sustainGain := max (peakGain * sustainLevel) 0.001
  let base := cancelScheduled g now ++ [.setValue 0 now, .linRamp peakGain (now + attackTime)]
  if decayTime > 0.001 then
    if sustainGain ≥ 0.01 then base ++ [.expRamp sustainGain (now + attackTime + decayTime)]
    else base ++ [.linRamp sustainGain (now + attackTime + decayTime)]
  else base

/-- The gain automation scheduled by `triggerRelease(voice)` at time
`now`: read the current computed gain, cancel pending automation,
re-anchor the captured value at `now`, and ramp exponentially to the
0.001 floor over `releaseTime`. -/
def triggerReleaseEvents (g : List AEvent) (now releaseTime : ℝ) : List AEvent :=
  cancelScheduled g now ++ [.setValue (paramValue g now) now, .expRamp 0.001 (now + releaseTime)]

end

/-! ## Pool-shape invariants: voice ids are never created, destroyed or
renamed after construction -/

/-- Updating a voice in place keeps the id sequence of the pool. -/
theorem modVoice_map_id (s : EngineState) (vid : Nat) (f : Voice → Voice)
    (hf : ∀ v, (f v).id = v.id) :
    ((modVoice s vid f).voices).map (fun v => v.id) = s.voices.map (fun v => v.id) := by
  simp only [modVoice, List.map_map]
  refine List.map_congr_left ?_
  intro v _
  by_cases h : v.id = vid <;> simp [h, hf]

/-- Starting an oscillator keeps the id sequence of the pool. -/
theorem startVoice_map_id (s : EngineState) (now : ℚ) (vid : Nat) (freq : ℚ) :
    ((startVoiceOscillatorQ s now vid freq).voices).map (fun v => v.id)
      = s.voices.map (fun v => v.id) := by
  simp only [startVoiceOscillatorQ]
  exact modVoice_map_id s vid _ (fun v => rfl)

/-- Stopping an oscillator keeps the id sequence of the pool. -/
theorem stopVoice_map_id (s : EngineState) (vid : Nat) (wh : ℚ) :
    ((stopVoiceOscillatorQ s vid wh).voices).map (fun v => v.id)
      = s.voices.map (fun v => v.id) := by
  unfold stopVoiceOscillatorQ
  split
  · rfl
  · split
    · rfl
    · dsimp only
      rw [modVoice_map_id _ vid (fun w => { w with oscillator := none }) (fun v => rfl)]

/-- Triggering a release keeps the id sequence of the pool. -/
theorem triggerRelease_map_id (s : EngineState) (now : ℚ) (vid : Nat) :
    ((triggerReleaseQ s now vid).voices).map (fun v => v.id)
      = s.voices.map (fun v => v.id) := by
  simp only [triggerReleaseQ]
  exact stopVoice_map_id _ vid _

/-- Stealing preparation keeps the id sequence of the pool. -/
theorem stealFrom_map_id (s : EngineState) (now : ℚ) (ov : Voice) :
    ((stealFrom s now ov).voices).map (fun v => v.id) = s.voices.map (fun v => v.id) := by
  unfold stealFrom
  split
  · rw [triggerRelease_map_id]
  · rfl

/-- Voice allocation keeps the id sequence of the pool. -/
theorem allocate_map_id (s : EngineState) (now : ℚ) (s1 : EngineState) (vid : Nat)
    (h : allocateVoiceQ s now = some (s1, vid)) :
    s1.voices.map (fun v => v.id) = s.voices.map (fun v => v.id) := by
  unfold allocateVoiceQ at h
  split at h
  · rw [Option.some.injEq, Prod.mk.injEq] at h
    obtain ⟨rfl, rfl⟩ := h
    rfl
  · split at h
    · exact absurd h (by simp)
    · rw [Option.some.injEq, Prod.mk.injEq] at h
      obtain ⟨rfl, rfl⟩ := h
      rw [stealFrom_map_id]

/-- A `noteOn` call keeps the id sequence of the pool. -/
theorem noteOn_map_id (s : EngineState) (now freq vel : ℚ) :
    ((noteOnQ s now freq vel).voices).map (fun v => v.id) = s.voices.map (fun v => v.id) := by
  unfold noteOnQ
  split
  · unfold noteOnRetrigger
    rw [modVoice_map_id _ _ (fun v => { v with noteStartTime := now }) (fun v => rfl),
      startVoice_map_id, stopVoice_map_id]
  · split
    · rfl
    · rename_i s1 vid ha
      unfold noteOnFreshAssign
      dsimp only
      rw [startVoice_map_id]
      unfold noteOnSetup
      rw [modVoice_map_id _ _
        (fun v => { v with active := true, frequency := some freq, noteStartTime := now })
        (fun v => rfl)]
      exact allocate_map_id s now s1 vid ha

/-- A `noteOff` call keeps the id sequence of the pool. -/
theorem noteOff_map_id (s : EngineState) (now freq : ℚ) :
    ((noteOffQ s now freq).voices).map (fun v => v.id) = s.voices.map (fun v => v.id) := by
  unfold noteOffQ
  split
  · rfl
  · rw [triggerRelease_map_id]

/-- A release-timer completion keeps the id sequence of the pool. -/
theorem fireTimer_map_id (s : EngineState) (k : Nat) :
    ((fireTimer s k).voices).map (fun v => v.id) = s.voices.map (fun v => v.id) := by
  unfold fireTimer
  split
  · rfl
  · dsimp only
    rw [modVoice_map_id _ _ (fun v => { v with active := false, frequency := none }) (fun v => rfl)]

/-- An `updateParameter` call keeps the id sequence of the pool. -/
theorem updateParameter_map_id (s : EngineState) (now : ℚ) (p : String) (v : PVal) :
    ((updateParameterQ s now p v).voices).map (fun w => w.id) = s.voices.map (fun w => w.id) := by
  unfold updateParameterQ
  repeat' split
  all_goals rfl

/-- Every engine transition keeps the id sequence of the pool. -/
theorem stepE_map_id (s : EngineState) (e : SynthEvent) :
    ((stepE s e).voices).map (fun v => v.id) = s.voices.map (fun v => v.id) := by
  cases e with
  | noteOn now f vel => exact noteOn_map_id s now f vel
  | noteOff now f => exact noteOff_map_id s now f
  | releaseTimer k => exact fireTimer_map_id s k
  | setParam now p v => exact updateParameter_map_id s now p v

/-- Every run of engine transitions keeps the id sequence of the pool. -/
theorem runE_map_id (s : EngineState) (evs : List SynthEvent) :
    ((runE s evs).voices).map (fun v => v.id) = s.voices.map (fun v => v.id) := by
  induction evs generalizing s with
  | nil => rfl
  | cons e evs ih =>
      show ((runE (stepE s e) evs).voices).map (fun v => v.id) = _
      rw [ih, stepE_map_id]

/-- The pool never changes size along a run. -/
theorem runE_voices_length (s : EngineState) (evs : List SynthEvent) :
    (runE s evs).voices.length = s.voices.length := by
  have h := congrArg List.length (runE_map_id s evs)
  simpa using h

/-- Claim C1: for every sequence of engine calls (noteOn, noteOff, release
timers, parameter updates) from a freshly constructed engine, the pool
stays a fixed collection of `MAX_VOICES = 6` voices and
`getActiveVoiceCount()` (the number of voices with `active = true`) never
exceeds the pool capacity 6. -/
theorem C1_active_voice_count_le_capacity (evs : List SynthEvent) :
    (runE (initEngine MAX_VOICES) evs).voices.length = MAX_VOICES ∧
    getActiveVoiceCount (runE (initEngine MAX_VOICES) evs) ≤ MAX_VOICES := by
  have hlen : (runE (initEngine MAX_VOICES) evs).voices.length = MAX_VOICES := by
    rw [runE_voices_length]
    simp [initEngine]
  refine ⟨hlen, ?_⟩
  calc getActiveVoiceCount (runE (initEngine MAX_VOICES) evs)
      ≤ (runE (initEngine MAX_VOICES) evs).voices.length := List.length_filter_le _ _
    _ = MAX_VOICES := hlen

/-! ## Map and field-preservation lemmas -/

/-- After `Map.set`, `Map.get` at the same key returns the new value. -/
theorem mapGet_set_self (l : List (ℚ × Nat)) (k : ℚ) (v : Nat) :
    mapGet (mapSet l k v) k = some v := by
  unfold mapSet
  by_cases hany : l.any (fun p => p.1 = k)
  · rw [if_pos hany]
    induction l with
    | nil => simp at hany
    | cons p rest ih =>
        by_cases hp : p.1 = k
        · simp [mapGet, List.find?, hp]
        · have : rest.any (fun q => decide (q.1 = k)) = true := by
            simpa [List.any_cons, hp] using hany
          simpa [mapGet, List.find?, hp] using ih this
  · rw [if_neg hany]
    induction l with
    | nil => simp [mapGet, List.find?]
    | cons p rest ih =>
        have hp : ¬ p.1 = k := by
          intro h
          exact hany (by simp [List.any_cons, h])
        have hrest : ¬ rest.any (fun q => decide (q.1 = k)) = true := by
          intro h
          exact hany (by simp [List.any_cons, h])
        simpa [mapGet, List.find?, hp] using ih hrest

/-- A `Map.get` hit is a member of the association list. -/
theorem mapGet_mem (l : List (ℚ × Nat)) (k : ℚ) (vid : Nat)
    (h : mapGet l k = some vid) : (k, vid) ∈ l := by
  unfold mapGet at h
  rcases hf : l.find? (fun p => p.1 = k) with _ | p
  · rw [hf] at h; simp at h
  · rw [hf] at h
    have hmem := List.mem_of_find?_eq_some hf
    have hkey : p.1 = k := by
      have := List.find?_some hf
      simpa using this
    have hp2 : p.2 = vid := by simpa using h
    obtain ⟨a, b⟩ := p
    simp only at hkey hp2
    subst hkey
    subst hp2
    exact hmem

/-- The source operation `stopVoiceOscillator` does not touch `activeNotes`. -/
theorem activeNotes_stopVoice (s : EngineState) (vid : Nat) (wh : ℚ) :
    (stopVoiceOscillatorQ s vid wh).activeNotes = s.activeNotes := by
  unfold stopVoiceOscillatorQ
  split
  · rfl
  · split
    · rfl
    · rfl

/-- The source operation `triggerRelease` does not touch `activeNotes`. -/
theorem activeNotes_triggerRelease (s : EngineState) (now : ℚ) (vid : Nat) :
    (triggerReleaseQ s now vid).activeNotes = s.activeNotes := by
  simp only [triggerReleaseQ]
  exact activeNotes_stopVoice _ _ _

/-- The retrigger path of `noteOn` does not touch `activeNotes`. -/
theorem activeNotes_retrigger (s : EngineState) (now f : ℚ) (vid : Nat) :
    (noteOnRetrigger s now f vid).activeNotes = s.activeNotes := by
  simp only [noteOnRetrigger, modVoice, startVoiceOscillatorQ]
  exact activeNotes_stopVoice _ _ _

/-- Updating voices while keeping every `active` flag keeps the active
count. -/
theorem count_modVoice (s : EngineState) (vid : Nat) (f : Voice → Voice)
    (hf : ∀ v, (f v).active = v.active) :
    getActiveVoiceCount (modVoice s vid f) = getActiveVoiceCount s := by
  simp only [getActiveVoiceCount, modVoice, ← List.countP_eq_length_filter, List.countP_map]
  refine List.countP_congr ?_
  intro v _
  by_cases h : v.id = vid <;> simp [Function.comp, h, hf]

/-- The source operation `stopVoiceOscillator` keeps the active count. -/
theorem count_stopVoice (s : EngineState) (vid : Nat) (wh : ℚ) :
    getActiveVoiceCount (stopVoiceOscillatorQ s vid wh) = getActiveVoiceCount s := by
  unfold stopVoiceOscillatorQ
  split
  · rfl
  · split
    · rfl
    · dsimp only
      exact count_modVoice _ vid (fun w => { w with oscillator := none }) (fun v => rfl)

/-- The source operation `startVoiceOscillator` keeps the active count. -/
theorem count_startVoice (s : EngineState) (now : ℚ) (vid : Nat) (freq : ℚ) :
    getActiveVoiceCount (startVoiceOscillatorQ s now vid freq) = getActiveVoiceCount s := by
  simp only [startVoiceOscillatorQ]
  exact count_modVoice _ vid _ (fun v => rfl)

/-- The retrigger path of `noteOn` keeps the active count. -/
theorem count_retrigger (s : EngineState) (now f : ℚ) (vid : Nat) :
    getActiveVoiceCount (noteOnRetrigger s now f vid) = getActiveVoiceCount s := by
  simp only [noteOnRetrigger]
  rw [count_modVoice _ vid (fun v => { v with noteStartTime := now }) (fun v => rfl),
    count_startVoice, count_stopVoice]

/-- On a nonempty pool, `allocateVoice` always yields a voice. -/
theorem allocateVoiceQ_isSome (s : EngineState) (now : ℚ) (h : s.voices ≠ []) :
    ∃ s1 vid, allocateVoiceQ s now = some (s1, vid) := by
  unfold allocateVoiceQ
  split
  · exact ⟨_, _, rfl⟩
  · split
    · exact absurd (by assumption) h
    · exact ⟨_, _, rfl⟩

/-- After any `noteOn(f)` on a nonempty pool, `f` is in `activeNotes`. -/
theorem noteOn_get_some (s : EngineState) (now f vel : ℚ) (h : s.voices ≠ []) :
    ∃ vid, mapGet (noteOnQ s now f vel).activeNotes f = some vid := by
  unfold noteOnQ
  split
  · rename_i vid hg
    rw [activeNotes_retrigger]
    exact ⟨vid, hg⟩
  · split
    · rename_i ha
      obtain ⟨s1, vid, hsome⟩ := allocateVoiceQ_isSome s now h
      rw [ha] at hsome
      exact absurd hsome (by simp)
    · rename_i s1 vid ha
      refine ⟨vid, ?_⟩
      simp only [noteOnFreshAssign]
      exact mapGet_set_self _ f vid

/-- When the frequency is already playing, `noteOn` is exactly the
retrigger path. -/
theorem noteOnQ_of_get_some (s : EngineState) (now f vel : ℚ) (vid : Nat)
    (hg : mapGet s.activeNotes f = some vid) :
    noteOnQ s now f vel = noteOnRetrigger s now f vid := by
  unfold noteOnQ
  rw [hg]

/-- Claim C7: calling `noteOn` twice in a row with the same frequency (no
intervening `noteOff`) makes the second call a retrigger of the very voice
the index already maps to that frequency: the index entries are unchanged,
the active-voice count is unchanged, and both calls leave the same voice id
mapped to the frequency. -/
theorem C7_double_noteOn_retriggers_same_voice (s : EngineState)
    (now1 now2 f vel1 vel2 : ℚ) (h : s.voices ≠ []) :
    (noteOnQ (noteOnQ s now1 f vel1) now2 f vel2).activeNotes
        = (noteOnQ s now1 f vel1).activeNotes ∧
    getActiveVoiceCount (noteOnQ (noteOnQ s now1 f vel1) now2 f vel2)
        = getActiveVoiceCount (noteOnQ s now1 f vel1) ∧
    ∃ vid, mapGet (noteOnQ s now1 f vel1).activeNotes f = some vid ∧
      mapGet (noteOnQ (noteOnQ s now1 f vel1) now2 f vel2).activeNotes f = some vid := by
  obtain ⟨vid, hvid⟩ := noteOn_get_some s now1 f vel1 h
  rw [noteOnQ_of_get_some _ now2 f vel2 vid hvid]
  refine ⟨activeNotes_retrigger _ _ _ _, count_retrigger _ _ _ _, vid, hvid, ?_⟩
  rw [activeNotes_retrigger]
  exact hvid

/-! ## The voice-stealing selection -/

/-- The first-minimum characterization of the `reduce` in `allocateVoice`:
on a pool whose ids strictly increase in pool order, the selected voice is
in the pool, no voice started strictly earlier, and any voice that started
at the same time has a greater-or-equal id (the first minimum in pool
order wins the tie). -/
theorem selectOldest_spec (vs : List Voice) : ∀ v0 : Voice,
    List.Pairwise (fun a b => a.id < b.id) (v0 :: vs) →
    selectOldest v0 vs ∈ v0 :: vs ∧
    ∀ w ∈ v0 :: vs, (selectOldest v0 vs).noteStartTime < w.noteStartTime ∨
      ((selectOldest v0 vs).noteStartTime = w.noteStartTime ∧ (selectOldest v0 vs).id ≤ w.id) := by
  induction vs with
  | nil =>
      intro v0 _
      constructor
      · exact List.mem_singleton_self v0
      · intro w hw
        rw [List.mem_singleton] at hw
        subst hw
        right
        exact ⟨rfl, le_refl _⟩
  | cons c rest ih =>
      intro v0 hp
      rw [List.pairwise_cons] at hp
      obtain ⟨h0, hp2⟩ := hp
      have hpc := hp2
      rw [List.pairwise_cons] at hpc
      obtain ⟨hc, hrest⟩ := hpc
      have hstep : selectOldest v0 (c :: rest)
          = selectOldest (if c.noteStartTime < v0.noteStartTime then c else v0) rest := rfl
      by_cases hlt : c.noteStartTime < v0.noteStartTime
      · obtain ⟨hmem, hmin⟩ := ih c hp2
        rw [hstep, if_pos hlt]
        constructor
        · exact List.mem_cons_of_mem v0 hmem
        · intro w hw
          rcases List.mem_cons.mp hw with rfl | hw2
          · rcases hmin c (List.mem_cons_self c rest) with hlt2 | ⟨heq2, _⟩
            · left; exact lt_trans hlt2 hlt
            · left; rw [heq2]; exact hlt
          · exact hmin w hw2
      · have hv0le : v0.noteStartTime ≤ c.noteStartTime := not_lt.mp hlt
        have hp3 : List.Pairwise (fun a b => a.id < b.id) (v0 :: rest) := by
          rw [List.pairwise_cons]
          exact ⟨fun b hb => h0 b (List.mem_cons_of_mem c hb), hrest⟩
        obtain ⟨hmem, hmin⟩ := ih v0 hp3
        rw [hstep, if_neg hlt]
        constructor
        · rcases List.mem_cons.mp hmem with h1 | h1
          · rw [h1]; exact List.mem_cons_self _ _
          · exact List.mem_cons_of_mem v0 (List.mem_cons_of_mem c h1)
        · intro w hw
          rcases List.mem_cons.mp hw with rfl | hw2
          · exact hmin w (List.mem_cons_self w rest)
          rcases List.mem_cons.mp hw2 with rfl | hw3
          · rcases hmin v0 (List.mem_cons_self v0 rest) with hlt2 | ⟨heq2, hid2⟩
            · left; exact lt_of_lt_of_le hlt2 hv0le
            · rcases lt_or_eq_of_le hv0le with hlt3 | heq3
              · left; rw [heq2]; exact hlt3
              · right
                refine ⟨by rw [heq2, heq3], ?_⟩
                have hvc : v0.id < w.id := h0 w (List.mem_cons_self w rest)
                exact le_of_lt (lt_of_le_of_lt hid2 hvc)
          · exact hmin w (List.mem_cons_of_mem v0 hw3)

/-- Claim C2: when `noteOn` sees a frequency that is not in the index and
every voice is active, the voice reused is the one with the smallest
`noteStartTime`, ties broken by pool order, i.e. by lowest id (ids strictly
increase in pool order in every reachable pool): `allocateVoice` steals
exactly that voice and `noteOn` continues with it. -/
theorem C2_full_pool_steals_oldest_lowest_id (s : EngineState) (now f vel : ℚ)
    (hfresh : mapGet s.activeNotes f = none)
    (hfull : ∀ v ∈ s.voices, v.active = true)
    (hne : s.voices ≠ [])
    (hids : List.Pairwise (fun a b => a.id < b.id) s.voices) :
    ∃ ov, ov ∈ s.voices ∧
      allocateVoiceQ s now = some (stealFrom s now ov, ov.id) ∧
      noteOnQ s now f vel = noteOnFreshAssign (stealFrom s now ov) now f ov.id ∧
      ∀ w ∈ s.voices, ov.noteStartTime < w.noteStartTime ∨
        (ov.noteStartTime = w.noteStartTime ∧ ov.id ≤ w.id) := by
  have hfind : s.voices.find? (fun v => !v.active) = none := by
    rw [List.find?_eq_none]
    intro x hx
    simp [hfull x hx]
  rcases hv : s.voices with _ | ⟨v0, rest⟩
  · exact absurd hv hne
  · rw [hv] at hids
    obtain ⟨hmem, hmin⟩ := selectOldest_spec rest v0 hids
    have halloc : allocateVoiceQ s now
        = some (stealFrom s now (selectOldest v0 rest), (selectOldest v0 rest).id) := by
      unfold allocateVoiceQ
      rw [hfind, hv]
    refine ⟨selectOldest v0 rest, hmem, halloc, ?_, hmin⟩
    unfold noteOnQ
    rw [hfresh, halloc]

/-! ## Automation-timeline lemmas -/

/-- Walking the timeline past events no later than `t` and reaching a
`setValueAtTime` anchor no later than `t` forgets the earlier
accumulator. -/
theorem valueFrom_append (l1 : List AEvent) (t c tc : ℝ) (rest : List AEvent)
    (hl1 : ∀ e ∈ l1, e.time ≤ t) (htc : tc ≤ t) :
    ∀ v0 t0, valueFrom v0 t0 (l1 ++ AEvent.setValue c tc :: rest) t = valueFrom c tc rest t := by
  induction l1 with
  | nil =>
      intro v0 t0
      simp only [List.nil_append, valueFrom]
      rw [if_neg (not_lt.mpr htc)]
  | cons e l1 ih =>
      intro v0 t0
      have he := hl1 e (List.mem_cons_self e l1)
      have hrest : ∀ e2 ∈ l1, e2.time ≤ t := fun e2 h2 => hl1 e2 (List.mem_cons_of_mem e h2)
      cases e with
      | setValue v t1 =>
          have he2 : t1 ≤ t := he
          simp only [List.cons_append, valueFrom]
          rw [if_neg (not_lt.mpr he2)]
          exact ih hrest v t1
      | linRamp v t1 =>
          have he2 : t1 ≤ t := he
          simp only [List.cons_append, valueFrom]
          rw [if_neg (not_lt.mpr he2)]
          exact ih hrest v t1
      | expRamp v t1 =>
          have he2 : t1 ≤ t := he
          simp only [List.cons_append, valueFrom]
          rw [if_neg (not_lt.mpr he2)]
          exact ih hrest v t1

/-- Every event surviving `cancelScheduledValues(t)` is strictly earlier
than `t`. -/
theorem cancelScheduled_le (events : List AEvent) (t : ℝ) :
    ∀ e ∈ cancelScheduled events t, e.time ≤ t := by
  intro e he
  rw [cancelScheduled, List.mem_filter] at he
  exact le_of_lt (by simpa using he.2)

/-- The one mid-attack value of the scheduled attack curve: strictly
inside the attack ramp the computed gain is the linear interpolation from
0 toward the peak, whatever decay tail follows. -/
theorem attack_value_mid (g0 : List AEvent) (now vel atk dec sus tR : ℝ)
    (h1 : now < tR) (h2 : tR < now + atk) :
    paramValue (triggerAttackEvents g0 now vel atk dec sus) tR
      = (vel * 0.5 / (MAX_VOICES : ℝ)) * (tR - now) / atk := by
  unfold triggerAttackEvents
  have hbase : ∀ tail : List AEvent,
      valueFrom 0 0 (cancelScheduled g0 now
          ++ AEvent.setValue 0 now
            :: AEvent.linRamp (vel * 0.5 / (MAX_VOICES : ℝ)) (now + atk) :: tail) tR
        = (vel * 0.5 / (MAX_VOICES : ℝ)) * (tR - now) / atk := by
    intro tail
    rw [valueFrom_append (cancelScheduled g0 now) tR _ now _
      (fun e he => le_trans (cancelScheduled_le g0 now e he) (le_of_lt h1)) (le_of_lt h1) 0 0]
    show (if tR < now + atk then _ else _) = _
    rw [if_pos h2, if_neg (not_le.mpr h1)]
    have ha : now + atk - now = atk := by ring
    rw [ha]
    ring
  dsimp only
  split
  · split
    · simpa using hbase _
    · simpa using hbase _
  · simpa using hbase _

/-- Claim C5: releasing a note (from any automation state, in particular
mid-attack or mid-decay) anchors the release ramp at the gain's computed
current value at that instant, ramps it to the 0.001 floor once the
release time has elapsed (the pending attack/decay automation is
cancelled), and for a note interrupted strictly mid-attack that starting
value is the attack curve's instantaneous value, strictly below the
nominal peak. -/
theorem C5_release_starts_from_current_gain (g0 : List AEvent)
    (now vel atk dec sus tR rel : ℝ)
    (h1 : now < tR) (h2 : tR < now + atk) (hrel : 0 < rel) (hvel : 0 < vel) :
    (∀ g : List AEvent, paramValue (triggerReleaseEvents g tR rel) tR = paramValue g tR) ∧
    (∀ (g : List AEvent) (t : ℝ), tR + rel ≤ t →
      paramValue (triggerReleaseEvents g tR rel) t = 0.001) ∧
    paramValue (triggerReleaseEvents (triggerAttackEvents g0 now vel atk dec sus) tR rel) tR
      = (vel * 0.5 / (MAX_VOICES : ℝ)) * (tR - now) / atk ∧
    paramValue (triggerAttackEvents g0 now vel atk dec sus) tR
      < vel * 0.5 / (MAX_VOICES : ℝ) := by
  have hanchor : ∀ g : List AEvent,
      paramValue (triggerReleaseEvents g tR rel) tR = paramValue g tR := by
    intro g
    unfold triggerReleaseEvents
    show valueFrom 0 0 _ tR = _
    rw [valueFrom_append (cancelScheduled g tR) tR _ tR _
      (cancelScheduled_le g tR) (le_refl tR) 0 0]
    show (if tR < tR + rel then _ else _) = _
    rw [if_pos (by linarith), if_pos (le_refl tR)]
  have hfloor : ∀ (g : List AEvent) (t : ℝ), tR + rel ≤ t →
      paramValue (triggerReleaseEvents g tR rel) t = 0.001 := by
    intro g t ht
    have htR : tR ≤ t := le_trans (by linarith) ht
    unfold triggerReleaseEvents
    show valueFrom 0 0 _ t = _
    rw [valueFrom_append (cancelScheduled g tR) t _ tR _
      (fun e he => le_trans (cancelScheduled_le g tR e he) htR) htR 0 0]
    show (if t < tR + rel then _ else _) = _
    rw [if_neg (not_lt.mpr ht)]
    rfl
  have hmid := attack_value_mid g0 now vel atk dec sus tR h1 h2
  have hatkpos : 0 < atk := by linarith
  have hpeakpos : 0 < vel * 0.5 / (MAX_VOICES : ℝ) := by
    have : (0 : ℝ) < (MAX_VOICES : ℝ) := by norm_num [MAX_VOICES]
    positivity
  refine ⟨hanchor, hfloor, ?_, ?_⟩
  · rw [hanchor, hmid]
  · rw [hmid]
    rw [div_lt_iff₀ hatkpos]
    have hlt : tR - now < atk := by linarith
    calc vel * 0.5 / (MAX_VOICES : ℝ) * (tR - now)
        < vel * 0.5 / (MAX_VOICES : ℝ) * atk := by
          exact mul_lt_mul_of_pos_left hlt hpeakpos
      _ = vel * 0.5 / (MAX_VOICES : ℝ) * atk := rfl

/-- Claim C5, witness: the spec's own test point, attack 0.1 s released at
its midpoint 0.05 s with velocity 1 and release 0.3 s: the release starts
from the computed mid-attack gain (1/24, half the 1/12 peak), strictly
below the peak. -/
theorem C5_release_starts_from_current_gain_witness :
    ((0 : ℝ) < 1/20 ∧ (1/20 : ℝ) < 0 + 1/10 ∧ (0 : ℝ) < 3/10 ∧ (0 : ℝ) < 1) ∧
    ((∀ g : List AEvent, paramValue (triggerReleaseEvents g (1/20) (3/10)) (1/20)
        = paramValue g (1/20)) ∧
    (∀ (g : List AEvent) (t : ℝ), 1/20 + 3/10 ≤ t →
      paramValue (triggerReleaseEvents g (1/20) (3/10)) t = 0.001) ∧
    paramValue (triggerReleaseEvents
        (triggerAttackEvents [] 0 1 (1/10) (1/10) (7/10)) (1/20) (3/10)) (1/20)
      = (1 * 0.5 / (MAX_VOICES : ℝ)) * (1/20 - 0) / (1/10) ∧
    paramValue (triggerAttackEvents [] 0 1 (1/10) (1/10) (7/10)) (1/20)
      < 1 * 0.5 / (MAX_VOICES : ℝ)) :=
  ⟨⟨by norm_num, by norm_num, by norm_num, by norm_num⟩,
    C5_release_starts_from_current_gain [] 0 1 (1/10) (1/10) (7/10) (1/20) (3/10)
      (by norm_num) (by norm_num) (by norm_num) (by norm_num)⟩

/-- Claim C6, settled against the code at the failing input: the ramp-type
selection of the decay matches the claim (with decay 0.2: exponential ramp
to sustain gain 7/120 when the sustain gain is at least 0.01, linear ramp
to the 0.001 floor when it is below 0.01), but when `decayTime` is 0 (at
or below the 0.001 epsilon) the code schedules no decay automation at all,
so after the attack the gain holds at the peak 1/12 instead of the sustain
gain 7/120 — contradicting the claim (and the code's own comment) that the
sustain level takes effect immediately after the attack. -/
theorem C6_zero_decay_holds_peak_not_sustain :
    triggerAttackEvents [] 0 1 (1/10) (1/5) (7/10)
      = [AEvent.setValue 0 0, AEvent.linRamp (1/12) (1/10),
          AEvent.expRamp (7/120) (1/10 + 1/5)] ∧
    triggerAttackEvents [] 0 1 (1/10) (1/5) 0
      = [AEvent.setValue 0 0, AEvent.linRamp (1/12) (1/10),
          AEvent.linRamp (1/1000) (1/10 + 1/5)] ∧
    triggerAttackEvents [] 0 1 (1/10) 0 (7/10)
      = [AEvent.setValue 0 0, AEvent.linRamp (1/12) (1/10)] ∧
    paramValue (triggerAttackEvents [] 0 1 (1/10) 0 (7/10)) (1/5) = 1/12 ∧
    ((1 : ℝ)/12 ≠ max ((1/12) * (7/10)) 0.001) := by
  have h3 : triggerAttackEvents [] 0 1 (1/10) 0 (7/10)
      = [AEvent.setValue 0 0, AEvent.linRamp (1/12) (1/10)] := by
    norm_num [triggerAttackEvents, cancelScheduled, MAX_VOICES]
  refine ⟨?_, ?_, h3, ?_, ?_⟩
  · norm_num [triggerAttackEvents, cancelScheduled, MAX_VOICES]
  · norm_num [triggerAttackEvents, cancelScheduled, MAX_VOICES]
  · rw [h3]
    norm_num [paramValue, valueFrom]
  · rw [max_eq_left (by norm_num)]
    norm_num

/-- Claim C8, settled against the code at the failing input: fill the
6-voice pool at times 0..5, then steal with a seventh note at time 6. The
stolen voice 0's original oscillator (the first node ever created) has
`connected = false` already in the state produced by the steal itself —
`stopVoiceOscillator` calls `disconnect()` immediately — even though its
`stop` was scheduled for `6 + releaseTime = 6.3`, the end of the release
ramp. The generator is therefore cut from its gain stage at the instant of
stealing, not after the release completes. -/
theorem C8_steal_disconnects_oscillator_immediately :
    (runE (initEngine MAX_VOICES)
        [SynthEvent.noteOn 0 100 1, SynthEvent.noteOn 1 110 1, SynthEvent.noteOn 2 120 1,
         SynthEvent.noteOn 3 130 1, SynthEvent.noteOn 4 140 1, SynthEvent.noteOn 5 150 1,
         SynthEvent.noteOn 6 700 1]).oscNodes.head?
      = some { oscType := "sawtooth", oscFreq := 100, startedAt := 0,
               stopAt := some (6 + 3/10), connected := false } ∧
    mapGet (runE (initEngine MAX_VOICES)
        [SynthEvent.noteOn 0 100 1, SynthEvent.noteOn 1 110 1, SynthEvent.noteOn 2 120 1,
         SynthEvent.noteOn 3 130 1, SynthEvent.noteOn 4 140 1, SynthEvent.noteOn 5 150 1,
         SynthEvent.noteOn 6 700 1]).activeNotes 700 = some 0 ∧
    (runE (initEngine MAX_VOICES)
        [SynthEvent.noteOn 0 100 1, SynthEvent.noteOn 1 110 1, SynthEvent.noteOn 2 120 1,
         SynthEvent.noteOn 3 130 1, SynthEvent.noteOn 4 140 1, SynthEvent.noteOn 5 150 1,
         SynthEvent.noteOn 6 700 1]).releaseTime = 3/10 := by
  refine ⟨?_, ?_, ?_⟩ <;>
    norm_num [runE, stepE, noteOnQ, noteOffQ, noteOnRetrigger, noteOnFreshAssign,
      noteOnSetup, allocateVoiceQ, stealFrom, selectOldest, triggerReleaseQ,
      stopVoiceOscillatorQ, startVoiceOscillatorQ, getVoice, modVoice, mapGet, mapSet,
      mapDelete, mapWithIndex, mapWithIndexFrom, initEngine, createVoice, List.find?,
      List.range_succ, MAX_VOICES]

/-- Claim C9: an unrecognized `updateParameter` name only appends a
`console.warn` line; the whole engine state — every shared parameter,
every filter ramp, every voice, every oscillator node, the index, the
timers — is otherwise exactly the same, and the total function never
throws. -/
theorem C9_unknown_parameter_logged_and_ignored (s : EngineState) (now : ℚ)
    (p : String) (v : PVal)
    (h : p ∉ ["cutoff", "resonance", "waveform", "filterType",
              "attack", "decay", "sustain", "release"]) :
    updateParameterQ s now p v
      = { s with warnings := s.warnings ++ ["Unknown parameter: " ++ p] } := by
  simp only [List.mem_cons, List.not_mem_nil, or_false, not_or] at h
  obtain ⟨h1, h2, h3, h4, h5, h6, h7, h8⟩ := h
  unfold updateParameterQ
  split
  · exact absurd rfl h1
  · exact absurd rfl h2
  · exact absurd rfl h3
  · exact absurd rfl h4
  · exact absurd rfl h5
  · exact absurd rfl h6
  · exact absurd rfl h7
  · exact absurd rfl h8
  · rfl

/-- Claim C9, witness: the unknown name "glide" with a numeric payload is
only logged. -/
theorem C9_unknown_parameter_logged_and_ignored_witness :
    ("glide" ∉ ["cutoff", "resonance", "waveform", "filterType",
                "attack", "decay", "sustain", "release"]) ∧
    updateParameterQ (initEngine MAX_VOICES) 0 "glide" (PVal.num 1)
      = { initEngine MAX_VOICES with
            warnings := (initEngine MAX_VOICES).warnings ++ ["Unknown parameter: glide"] } :=
  ⟨by decide,
    C9_unknown_parameter_logged_and_ignored (initEngine MAX_VOICES) 0 "glide" (PVal.num 1)
      (by decide)⟩

/-- The source operation `stopVoiceOscillator` never changes the shared ADSR configuration. -/
theorem stopVoice_adsr (s : EngineState) (vid : Nat) (wh : ℚ) :
    (stopVoiceOscillatorQ s vid wh).attackTime = s.attackTime ∧
    (stopVoiceOscillatorQ s vid wh).decayTime = s.decayTime ∧
    (stopVoiceOscillatorQ s vid wh).sustainLevel = s.sustainLevel ∧
    (stopVoiceOscillatorQ s vid wh).releaseTime = s.releaseTime := by
  unfold stopVoiceOscillatorQ
  repeat' split
  all_goals exact ⟨rfl, rfl, rfl, rfl⟩

/-- The source operation `triggerRelease` never changes the shared ADSR configuration. -/
theorem triggerRelease_adsr (s : EngineState) (now : ℚ) (vid : Nat) :
    (triggerReleaseQ s now vid).attackTime = s.attackTime ∧
    (triggerReleaseQ s now vid).decayTime = s.decayTime ∧
    (triggerReleaseQ s now vid).sustainLevel = s.sustainLevel ∧
    (triggerReleaseQ s now vid).releaseTime = s.releaseTime := by
  obtain ⟨q1, q2, q3, q4⟩ := stopVoice_adsr s vid (now + s.releaseTime)
  exact ⟨q1, q2, q3, q4⟩

/-- Stealing preparation never changes the shared ADSR configuration. -/
theorem stealFrom_adsr (s : EngineState) (now : ℚ) (ov : Voice) :
    (stealFrom s now ov).attackTime = s.attackTime ∧
    (stealFrom s now ov).decayTime = s.decayTime ∧
    (stealFrom s now ov).sustainLevel = s.sustainLevel ∧
    (stealFrom s now ov).releaseTime = s.releaseTime := by
  unfold stealFrom
  split
  · rename_i oldFreq hovf
    obtain ⟨q1, q2, q3, q4⟩ :=
      triggerRelease_adsr { s with activeNotes := mapDelete s.activeNotes oldFreq } now ov.id
    exact ⟨q1, q2, q3, q4⟩
  · exact ⟨rfl, rfl, rfl, rfl⟩

/-- Voice allocation never changes the shared ADSR configuration. -/
theorem allocate_adsr (s : EngineState) (now : ℚ) (s1 : EngineState) (vid : Nat)
    (h : allocateVoiceQ s now = some (s1, vid)) :
    s1.attackTime = s.attackTime ∧
    s1.decayTime = s.decayTime ∧
    s1.sustainLevel = s.sustainLevel ∧
    s1.releaseTime = s.releaseTime := by
  unfold allocateVoiceQ at h
  split at h
  · rw [Option.some.injEq, Prod.mk.injEq] at h
    obtain ⟨rfl, rfl⟩ := h
    exact ⟨rfl, rfl, rfl, rfl⟩
  · split at h
    · exact absurd h (by simp)
    · rw [Option.some.injEq, Prod.mk.injEq] at h
      obtain ⟨rfl, rfl⟩ := h
      exact stealFrom_adsr s now _

/-- A `noteOn` call never changes the shared ADSR configuration. -/
theorem noteOn_adsr (s : EngineState) (now f vel : ℚ) :
    (noteOnQ s now f vel).attackTime = s.attackTime ∧
    (noteOnQ s now f vel).decayTime = s.decayTime ∧
    (noteOnQ s now f vel).sustainLevel = s.sustainLevel ∧
    (noteOnQ s now f vel).releaseTime = s.releaseTime := by
  unfold noteOnQ
  split
  · rename_i vid hg
    obtain ⟨q1, q2, q3, q4⟩ := stopVoice_adsr s vid now
    exact ⟨q1, q2, q3, q4⟩
  · split
    · exact ⟨rfl, rfl, rfl, rfl⟩
    · rename_i s1 vid ha
      obtain ⟨q1, q2, q3, q4⟩ := allocate_adsr s now s1 vid ha
      exact ⟨q1, q2, q3, q4⟩

/-- A `noteOff` call never changes the shared ADSR configuration. -/
theorem noteOff_adsr (s : EngineState) (now f : ℚ) :
    (noteOffQ s now f).attackTime = s.attackTime ∧
    (noteOffQ s now f).decayTime = s.decayTime ∧
    (noteOffQ s now f).sustainLevel = s.sustainLevel ∧
    (noteOffQ s now f).releaseTime = s.releaseTime := by
  unfold noteOffQ
  split
  · exact ⟨rfl, rfl, rfl, rfl⟩
  · rename_i vid hg
    obtain ⟨q1, q2, q3, q4⟩ :=
      triggerRelease_adsr { s with activeNotes := mapDelete s.activeNotes f } now vid
    exact ⟨q1, q2, q3, q4⟩

/-- A release-timer completion never changes the shared ADSR
configuration. -/
theorem fireTimer_adsr (s : EngineState) (k : Nat) :
    (fireTimer s k).attackTime = s.attackTime ∧
    (fireTimer s k).decayTime = s.decayTime ∧
    (fireTimer s k).sustainLevel = s.sustainLevel ∧
    (fireTimer s k).releaseTime = s.releaseTime := by
  unfold fireTimer
  repeat' split
  all_goals exact ⟨rfl, rfl, rfl, rfl⟩

/-- Every engine transition keeps the ADSR configuration inside the
clamping ranges. -/
theorem adsr_step (s : EngineState) (e : SynthEvent) (h : adsrInRange s) :
    adsrInRange (stepE s e) := by
  cases e with
  | noteOn now f vel =>
      obtain ⟨q1, q2, q3, q4⟩ := noteOn_adsr s now f vel
      unfold adsrInRange at h ⊢
      rw [stepE, q1, q2, q3, q4]
      exact h
  | noteOff now f =>
      obtain ⟨q1, q2, q3, q4⟩ := noteOff_adsr s now f
      unfold adsrInRange at h ⊢
      rw [stepE, q1, q2, q3, q4]
      exact h
  | releaseTimer k =>
      obtain ⟨q1, q2, q3, q4⟩ := fireTimer_adsr s k
      unfold adsrInRange at h ⊢
      rw [stepE, q1, q2, q3, q4]
      exact h
  | setParam now p v =>
      show adsrInRange (updateParameterQ s now p v)
      unfold updateParameterQ
      repeat' split
      all_goals try exact h
      · exact ⟨⟨le_max_left _ _, max_le (by norm_num) (min_le_left _ _)⟩,
          h.2.1, h.2.2.1, h.2.2.2⟩
      · exact ⟨h.1, ⟨le_max_left _ _, max_le (by norm_num) (min_le_left _ _)⟩,
          h.2.2.1, h.2.2.2⟩
      · exact ⟨h.1, h.2.1, ⟨le_max_left _ _, max_le (by norm_num) (min_le_left _ _)⟩,
          h.2.2.2⟩
      · exact ⟨h.1, h.2.1, h.2.2.1,
          ⟨le_max_left _ _, max_le (by norm_num) (min_le_left _ _)⟩⟩

/-- Claim C10: `updateParameter` clamps every numeric ADSR write — attack
and decay into [0, 2], sustain into [0, 1], release into [0, 5] — and
consequently (the defaults lying inside the ranges and every other
transition leaving the configuration unchanged) the bounds hold in every
reachable engine state. -/
theorem C10_adsr_clamped_in_every_reachable_state :
    (∀ (s : EngineState) (now v : ℚ),
      (0 ≤ (updateParameterQ s now "attack" (PVal.num v)).attackTime ∧
        (updateParameterQ s now "attack" (PVal.num v)).attackTime ≤ 2) ∧
      (0 ≤ (updateParameterQ s now "decay" (PVal.num v)).decayTime ∧
        (updateParameterQ s now "decay" (PVal.num v)).decayTime ≤ 2) ∧
      (0 ≤ (updateParameterQ s now "sustain" (PVal.num v)).sustainLevel ∧
        (updateParameterQ s now "sustain" (PVal.num v)).sustainLevel ≤ 1) ∧
      (0 ≤ (updateParameterQ s now "release" (PVal.num v)).releaseTime ∧
        (updateParameterQ s now "release" (PVal.num v)).releaseTime ≤ 5)) ∧
    ∀ evs, adsrInRange (runE (initEngine MAX_VOICES) evs) := by
  constructor
  · intro s now v
    refine ⟨⟨le_max_left _ _, max_le (by norm_num) (min_le_left _ _)⟩,
      ⟨le_max_left _ _, max_le (by norm_num) (min_le_left _ _)⟩,
      ⟨le_max_left _ _, max_le (by norm_num) (min_le_left _ _)⟩,
      ⟨le_max_left _ _, max_le (by norm_num) (min_le_left _ _)⟩⟩
  · have hrun : ∀ (evs : List SynthEvent) (s : EngineState),
        adsrInRange s → adsrInRange (runE s evs) := by
      intro evs
      induction evs with
      | nil => intro s h; exact h
      | cons e evs ih =>
          intro s h
          exact ih (stepE s e) (adsr_step s e h)
    intro evs
    refine hrun evs (initEngine MAX_VOICES) ?_
    unfold adsrInRange initEngine
    norm_num

/-- Claim C7, witness: two `noteOn(440, 1)` calls on the fresh engine. -/
theorem C7_double_noteOn_retriggers_same_voice_witness :
    ((initEngine MAX_VOICES).voices ≠ []) ∧
    ((noteOnQ (noteOnQ (initEngine MAX_VOICES) 0 440 1) 1 440 1).activeNotes
        = (noteOnQ (initEngine MAX_VOICES) 0 440 1).activeNotes ∧
      getActiveVoiceCount (noteOnQ (noteOnQ (initEngine MAX_VOICES) 0 440 1) 1 440 1)
        = getActiveVoiceCount (noteOnQ (initEngine MAX_VOICES) 0 440 1) ∧
      ∃ vid, mapGet (noteOnQ (initEngine MAX_VOICES) 0 440 1).activeNotes 440 = some vid ∧
        mapGet (noteOnQ (noteOnQ (initEngine MAX_VOICES) 0 440 1) 1 440 1).activeNotes 440
          = some vid) :=
  ⟨by decide,
    C7_double_noteOn_retriggers_same_voice (initEngine MAX_VOICES) 0 1 440 1 1
      (by decide)⟩

/-- Claim C2, witness: the spec's capacity-2 scenario. After `noteOn(100)`
at time 0 and `noteOn(200)` at time 1 on a 2-voice pool, both voices are
active and a `noteOn(300)` at time 2 steals the voice holding 100 (voice
0, the oldest) and leaves the voice holding 200 untouched. -/
theorem C2_full_pool_steals_oldest_lowest_id_witness :
    (mapGet (runE (initEngine 2)
        [SynthEvent.noteOn 0 100 1, SynthEvent.noteOn 1 200 1]).activeNotes 300 = none) ∧
    (∀ v ∈ (runE (initEngine 2)
        [SynthEvent.noteOn 0 100 1, SynthEvent.noteOn 1 200 1]).voices, v.active = true) ∧
    ((runE (initEngine 2)
        [SynthEvent.noteOn 0 100 1, SynthEvent.noteOn 1 200 1]).voices ≠ []) ∧
    (List.Pairwise (fun a b => a.id < b.id) (runE (initEngine 2)
        [SynthEvent.noteOn 0 100 1, SynthEvent.noteOn 1 200 1]).voices) ∧
    (∃ ov, ov ∈ (runE (initEngine 2)
          [SynthEvent.noteOn 0 100 1, SynthEvent.noteOn 1 200 1]).voices ∧
      allocateVoiceQ (runE (initEngine 2)
          [SynthEvent.noteOn 0 100 1, SynthEvent.noteOn 1 200 1]) 2
        = some (stealFrom (runE (initEngine 2)
            [SynthEvent.noteOn 0 100 1, SynthEvent.noteOn 1 200 1]) 2 ov, ov.id) ∧
      noteOnQ (runE (initEngine 2)
          [SynthEvent.noteOn 0 100 1, SynthEvent.noteOn 1 200 1]) 2 300 1
        = noteOnFreshAssign (stealFrom (runE (initEngine 2)
            [SynthEvent.noteOn 0 100 1, SynthEvent.noteOn 1 200 1]) 2 ov) 2 300 ov.id ∧
      ∀ w ∈ (runE (initEngine 2)
          [SynthEvent.noteOn 0 100 1, SynthEvent.noteOn 1 200 1]).voices,
        ov.noteStartTime < w.noteStartTime ∨
          (ov.noteStartTime = w.noteStartTime ∧ ov.id ≤ w.id)) ∧
    ((runE (initEngine 2)
        [SynthEvent.noteOn 0 100 1, SynthEvent.noteOn 1 200 1,
         SynthEvent.noteOn 2 300 1]).voices.map (fun v => (v.id, v.frequency))
      = [(0, some 300), (1, some 200)]) ∧
    (mapGet (runE (initEngine 2)
        [SynthEvent.noteOn 0 100 1, SynthEvent.noteOn 1 200 1,
         SynthEvent.noteOn 2 300 1]).activeNotes 300 = some 0) ∧
    (mapGet (runE (initEngine 2)
        [SynthEvent.noteOn 0 100 1, SynthEvent.noteOn 1 200 1,
         SynthEvent.noteOn 2 300 1]).activeNotes 200 = some 1) := by
  refine ⟨?_, ?_, ?_, ?_,
    C2_full_pool_steals_oldest_lowest_id _ 2 300 1 ?_ ?_ ?_ ?_, ?_, ?_, ?_⟩ <;>
    norm_num [runE, stepE, noteOnQ, noteOffQ, noteOnRetrigger, noteOnFreshAssign,
      noteOnSetup, allocateVoiceQ, stealFrom, selectOldest, triggerReleaseQ,
      stopVoiceOscillatorQ, startVoiceOscillatorQ, getVoice, modVoice, mapGet, mapSet,
      mapDelete, mapWithIndex, mapWithIndexFrom, initEngine, createVoice, List.find?,
      List.range_succ, List.pairwise_cons, MAX_VOICES] <;>
    exact List.cons_ne_nil _ _

/-! ## Index and pool membership lemmas -/

/-- The `reduce` result is one of the pool's voices. -/
theorem selectOldest_mem (vs : List Voice) : ∀ v0 : Voice, selectOldest v0 vs ∈ v0 :: vs := by
  induction vs with
  | nil => intro v0; exact List.mem_singleton_self v0
  | cons c rest ih =>
      intro v0
      have hstep : selectOldest v0 (c :: rest)
          = selectOldest (if c.noteStartTime < v0.noteStartTime then c else v0) rest := rfl
      rw [hstep]
      rcases List.mem_cons.mp (ih (if c.noteStartTime < v0.noteStartTime then c else v0)) with
        h1 | h1
      · rw [h1]
        by_cases hlt : c.noteStartTime < v0.noteStartTime
      

        · rw [if_pos hlt]; exact List.mem_cons_of_mem v0 (List.mem_cons_self c rest)
        · rw [if_neg hlt]; exact List.mem_cons_self v0 _
      · exact List.mem_cons_of_mem v0 (List.mem_cons_of_mem c h1)

/-- Setting an absent key appends its entry. -/
theorem mapSet_of_get_none (l : List (ℚ × Nat)) (k : ℚ) (v : Nat)
    (h : mapGet l k = none) : mapSet l k v = l ++ [(k, v)] := by
  unfold mapSet
  rw [if_neg]
  intro hany
  rw [List.any_eq_true] at hany
  obtain ⟨p, hp, hpk⟩ := hany
  have hpk2 : p.1 = k := by simpa using hpk
  unfold mapGet at h
  rw [Option.map_eq_none', List.find?_eq_none] at h
  exact h p hp (by simpa using hpk2)

/-- Membership in a deleted map. -/
theorem mem_mapDelete (l : List (ℚ × Nat)) (k : ℚ) (p : ℚ × Nat)
    (h : p ∈ mapDelete l k) : p ∈ l ∧ p.1 ≠ k := by
  unfold mapDelete at h
  rw [List.mem_filter] at h
  exact ⟨h.1, by simpa using h.2⟩

/-- A deleted key is gone. -/
theorem mapGet_delete_self (l : List (ℚ × Nat)) (k : ℚ) :
    mapGet (mapDelete l k) k = none := by
  unfold mapGet
  rw [Option.map_eq_none', List.find?_eq_none]
  intro p hp
  obtain ⟨_, hne⟩ := mem_mapDelete l k p hp
  simpa using hne

/-- Deleting some key keeps an absent key absent. -/
theorem mapGet_delete_none (l : List (ℚ × Nat)) (k k2 : ℚ)
    (h : mapGet l k = none) : mapGet (mapDelete l k2) k = none := by
  unfold mapGet at h ⊢
  rw [Option.map_eq_none', List.find?_eq_none] at h ⊢
  intro p hp
  exact h p (mem_mapDelete l k2 p hp).1

/-- A voice with a different id passes through `modVoice` unchanged. -/
theorem modVoice_mem_other (s : EngineState) (vid : Nat) (f : Voice → Voice)
    (v : Voice) (hv : v ∈ s.voices) (hne : v.id ≠ vid) :
    v ∈ (modVoice s vid f).voices := by
  unfold modVoice
  have hmem := List.mem_map_of_mem (fun w => if w.id = vid then f w else w) hv
  have h2 : (fun w => if w.id = vid then f w else w) v = v := by simp [hne]
  rw [h2] at hmem
  exact hmem

/-- The image of a voice with the target id is in `modVoice`'s pool. -/
theorem modVoice_mem_self (s : EngineState) (vid : Nat) (f : Voice → Voice)
    (v : Voice) (hv : v ∈ s.voices) (heq : v.id = vid) :
    f v ∈ (modVoice s vid f).voices := by
  unfold modVoice
  have hmem := List.mem_map_of_mem (fun w => if w.id = vid then f w else w) hv
  have h2 : (fun w => if w.id = vid then f w else w) v = f v := by simp [heq]
  rw [h2] at hmem
  exact hmem

/-- A voice with a different id passes through `stopVoiceOscillator`
unchanged. -/
theorem stopVoice_mem_other (s : EngineState) (vid : Nat) (wh : ℚ)
    (v : Voice) (hv : v ∈ s.voices) (hne : v.id ≠ vid) :
    v ∈ (stopVoiceOscillatorQ s vid wh).voices := by
  unfold stopVoiceOscillatorQ
  split
  · exact hv
  · split
    · exact hv
    · exact modVoice_mem_other _ vid _ v hv hne

/-- The source operation `stopVoiceOscillator` keeps every voice's id, activity and frequency
(witnessed by the surviving voice). -/
theorem stopVoice_iaf (s : EngineState) (vid : Nat) (wh : ℚ)
    (v : Voice) (hv : v ∈ s.voices) :
    ∃ v2 ∈ (stopVoiceOscillatorQ s vid wh).voices,
      v2.id = v.id ∧ v2.active = v.active ∧ v2.frequency = v.frequency := by
  unfold stopVoiceOscillatorQ
  split
  · exact ⟨v, hv, rfl, rfl, rfl⟩
  · split
    · exact ⟨v, hv, rfl, rfl, rfl⟩
    · by_cases h : v.id = vid
      · exact ⟨_, modVoice_mem_self _ vid _ v hv h, by simp, rfl, rfl⟩
      · exact ⟨v, modVoice_mem_other _ vid _ v hv h, rfl, rfl, rfl⟩

/-- An `updateParameter` call never changes the index or the pool. -/
theorem updateParameter_an_voices (s : EngineState) (now : ℚ) (p : String) (v : PVal) :
    (updateParameterQ s now p v).activeNotes = s.activeNotes ∧
    (updateParameterQ s now p v).voices = s.voices := by
  unfold updateParameterQ
  repeat' split
  all_goals exact ⟨rfl, rfl⟩

/-- A release-timer completion never changes the index. -/
theorem fireTimer_activeNotes (s : EngineState) (k : Nat) :
    (fireTimer s k).activeNotes = s.activeNotes := by
  unfold fireTimer
  repeat' split
  all_goals rfl

/-- The source operation `Map.set` keeps the keys duplicate-free. -/
theorem mapSet_keys_nodup (l : List (ℚ × Nat)) (k : ℚ) (v : Nat)
    (h : (l.map (fun p => p.1)).Nodup) : ((mapSet l k v).map (fun p => p.1)).Nodup := by
  unfold mapSet
  split
  · have hkeys : (l.map (fun p => if p.1 = k then (k, v) else p)).map (fun p => p.1)
        = l.map (fun p => p.1) := by
      rw [List.map_map]
      refine List.map_congr_left ?_
      intro p _
      by_cases hp : p.1 = k <;> simp [hp]
    rw [hkeys]
    exact h
  · rename_i hany
    rw [List.map_append]
    refine List.Nodup.append h (List.nodup_singleton k) ?_
    intro a ha hb
    have hb2 : a = (k, v).1 := List.mem_singleton.mp hb
    obtain ⟨p, hp, rfl⟩ := List.mem_map.mp ha
    exact hany (by
      rw [List.any_eq_true]
      exact ⟨p, hp, by simpa using hb2⟩)

/-- The source operation `Map.delete` keeps the keys duplicate-free. -/
theorem mapDelete_keys_nodup (l : List (ℚ × Nat)) (k : ℚ)
    (h : (l.map (fun p => p.1)).Nodup) : ((mapDelete l k).map (fun p => p.1)).Nodup := by
  exact List.Nodup.sublist (List.Sublist.map _ (List.filter_sublist l)) h

/-- Allocating a voice leaves the index unchanged or deletes exactly the
stolen voice's frequency. -/
theorem allocate_activeNotes (s : EngineState) (now : ℚ) (s1 : EngineState) (vid : Nat)
    (h : allocateVoiceQ s now = some (s1, vid)) :
    s1.activeNotes = s.activeNotes ∨
      ∃ oldF, s1.activeNotes = mapDelete s.activeNotes oldF := by
  unfold allocateVoiceQ at h
  split at h
  · rw [Option.some.injEq, Prod.mk.injEq] at h
    obtain ⟨rfl, rfl⟩ := h
    left
    rfl
  · split at h
    · exact absurd h (by simp)
    · rw [Option.some.injEq, Prod.mk.injEq] at h
      obtain ⟨rfl, rfl⟩ := h
      unfold stealFrom
      split
      · right
        exact ⟨_, activeNotes_triggerRelease _ _ _⟩
      · left
        rfl

/-- Every engine transition keeps the index keys duplicate-free. -/
theorem keys_step (s : EngineState) (e : SynthEvent)
    (h : atMostOneVoicePerFreq s) : atMostOneVoicePerFreq (stepE s e) := by
  cases e with
  | noteOn now f vel =>
      show atMostOneVoicePerFreq (noteOnQ s now f vel)
      unfold noteOnQ
      split
      · unfold atMostOneVoicePerFreq
        rw [activeNotes_retrigger]
        exact h
      · split
        · exact h
        · rename_i s1 vid ha
          have h1 : atMostOneVoicePerFreq s1 := by
            rcases allocate_activeNotes s now s1 vid ha with heq | ⟨oldF, heq⟩
            · unfold atMostOneVoicePerFreq
              rw [heq]
              exact h
            · unfold atMostOneVoicePerFreq
              rw [heq]
              exact mapDelete_keys_nodup _ _ h
          show atMostOneVoicePerFreq (noteOnFreshAssign s1 now f vid)
          unfold atMostOneVoicePerFreq
          have hassign : (noteOnFreshAssign s1 now f vid).activeNotes
              = mapSet s1.activeNotes f vid := rfl
          rw [hassign]
          exact mapSet_keys_nodup _ f vid h1
  | noteOff now f =>
      show atMostOneVoicePerFreq (noteOffQ s now f)
      unfold noteOffQ
      split
      · exact h
      · unfold atMostOneVoicePerFreq
        rw [activeNotes_triggerRelease]
        exact mapDelete_keys_nodup _ _ h
  | releaseTimer k =>
      unfold atMostOneVoicePerFreq
      show ((fireTimer s k).activeNotes.map _).Nodup
      rw [fireTimer_activeNotes]
      exact h
  | setParam now p v =>
      show atMostOneVoicePerFreq (updateParameterQ s now p v)
      unfold atMostOneVoicePerFreq
      rw [(updateParameter_an_voices s now p v).1]
      exact h

/-- The source operation `modVoice` with a field map that keeps id, activity and frequency
provides a matching voice for any pool member. -/
theorem modVoice_iaf (s : EngineState) (vid : Nat) (f : Voice → Voice)
    (hf : ∀ v, (f v).id = v.id ∧ (f v).active = v.active ∧ (f v).frequency = v.frequency)
    (v : Voice) (hv : v ∈ s.voices) :
    ∃ v2 ∈ (modVoice s vid f).voices,
      v2.id = v.id ∧ v2.active = v.active ∧ v2.frequency = v.frequency := by
  by_cases hcase : v.id = vid
  · exact ⟨f v, modVoice_mem_self s vid f v hv hcase, (hf v).1, (hf v).2.1, (hf v).2.2⟩
  · exact ⟨v, modVoice_mem_other s vid f v hv hcase, rfl, rfl, rfl⟩

/-- A voice with a different id passes through `startVoiceOscillator`
unchanged. -/
theorem startVoice_mem_other (s : EngineState) (now : ℚ) (vid : Nat) (freq : ℚ)
    (v : Voice) (hv : v ∈ s.voices) (hne : v.id ≠ vid) :
    v ∈ (startVoiceOscillatorQ s now vid freq).voices :=
  modVoice_mem_other s vid _ v hv hne

/-- The source operation `startVoiceOscillator` keeps every voice's id, activity and
frequency. -/
theorem startVoice_iaf (s : EngineState) (now : ℚ) (vid : Nat) (freq : ℚ)
    (v : Voice) (hv : v ∈ s.voices) :
    ∃ v2 ∈ (startVoiceOscillatorQ s now vid freq).voices,
      v2.id = v.id ∧ v2.active = v.active ∧ v2.frequency = v.frequency :=
  modVoice_iaf s vid (fun v => { v with oscillator := some s.oscNodes.length })
    (fun w => ⟨rfl, rfl, rfl⟩) v hv

/-- The breakdown of a successful allocation: either a free voice was
found (the state untouched), or the oldest voice was stolen through
`stealFrom`. -/
theorem allocate_cases (s : EngineState) (now : ℚ) (s1 : EngineState) (vid : Nat)
    (h : allocateVoiceQ s now = some (s1, vid)) :
    (s1 = s ∧ ∃ fv, fv ∈ s.voices ∧ fv.id = vid ∧ fv.active = false) ∨
    (∃ ov, ov ∈ s.voices ∧ ov.id = vid ∧ s1 = stealFrom s now ov) := by
  unfold allocateVoiceQ at h
  split at h
  · rename_i fv hfind
    rw [Option.some.injEq, Prod.mk.injEq] at h
    obtain ⟨rfl, rfl⟩ := h
    left
    refine ⟨rfl, fv, List.mem_of_find?_eq_some hfind, rfl, ?_⟩
    have := List.find?_some hfind
    simpa using this
  · split at h
    · exact absurd h (by simp)
    · rename_i hfind v0 rest hvs
      rw [Option.some.injEq, Prod.mk.injEq] at h
      obtain ⟨rfl, rfl⟩ := h
      right
      refine ⟨selectOldest v0 rest, ?_, rfl, rfl⟩
      rw [hvs]
      exact selectOldest_mem rest v0

/-- The voice written by the fresh-assignment path of `noteOn`: active,
holding the new frequency, under the allocated id. -/
theorem freshAssign_target_mem (s1 : EngineState) (now f : ℚ) (vid : Nat)
    (w : Voice) (hw : w ∈ s1.voices) (hwid : w.id = vid) :
    ∃ v2 ∈ (noteOnFreshAssign s1 now f vid).voices,
      v2.id = vid ∧ v2.active = true ∧ v2.frequency = some f := by
  have h1 : ({ w with active := true, frequency := some f, noteStartTime := now } : Voice)
      ∈ (noteOnSetup s1 now f vid).voices :=
    modVoice_mem_self s1 vid _ w hw hwid
  have h2 := modVoice_mem_self (noteOnSetup s1 now f vid) vid
    (fun v => { v with oscillator := some (noteOnSetup s1 now f vid).oscNodes.length })
    _ h1 hwid
  exact ⟨_, h2, hwid, rfl, rfl⟩

/-- Entries of the fresh-assignment path that avoid the allocated id pass
through untouched. -/
theorem freshAssign_mem_other (s1 : EngineState) (now f : ℚ) (vid : Nat)
    (v : Voice) (hv : v ∈ s1.voices) (hne : v.id ≠ vid) :
    v ∈ (noteOnFreshAssign s1 now f vid).voices :=
  startVoice_mem_other _ now vid f v (modVoice_mem_other s1 vid _ v hv hne) hne

/-- Members of identical-id pairs in a duplicate-free pool coincide. -/
theorem voice_eq_of_id_eq (l : List Voice) (hids : (l.map (fun v => v.id)).Nodup)
    (a b : Voice) (ha : a ∈ l) (hb : b ∈ l) (hab : a.id = b.id) : a = b :=
  List.inj_on_of_nodup_map hids ha hb hab

/-- Timer-free engine transitions keep every index entry pointing at an
active voice that holds exactly the entry's frequency (ids assumed
duplicate-free, as in every reachable pool). -/
theorem entry_step (s : EngineState) (e : SynthEvent)
    (hn : ∀ k, e ≠ SynthEvent.releaseTimer k)
    (hids : (s.voices.map (fun v => v.id)).Nodup)
    (h : entryConsistent s) : entryConsistent (stepE s e) := by
  cases e with
  | releaseTimer k => exact absurd rfl (hn k)
  | setParam now p v =>
      show entryConsistent (updateParameterQ s now p v)
      unfold entryConsistent
      rw [(updateParameter_an_voices s now p v).1, (updateParameter_an_voices s now p v).2]
      exact h
  | noteOff now f =>
      show entryConsistent (noteOffQ s now f)
      unfold noteOffQ
      split
      · exact h
      · rename_i vid hg
        intro q hq
        have hq2 : q ∈ mapDelete s.activeNotes f := by
          rw [activeNotes_triggerRelease] at hq
          exact hq
        obtain ⟨hqMem, hqNe⟩ := mem_mapDelete _ _ _ hq2
        obtain ⟨v, hv, hvid, hact, hfreq⟩ := h q hqMem
        obtain ⟨v2, hv2, e1, e2, e3⟩ :=
          stopVoice_iaf { s with activeNotes := mapDelete s.activeNotes f } vid _ v hv
        exact ⟨v2, hv2, by rw [e1]; exact hvid, by rw [e2]; exact hact, by rw [e3]; exact hfreq⟩
  | noteOn now f vel =>
      show entryConsistent (noteOnQ s now f vel)
      unfold noteOnQ
      split
      · rename_i vid hg
        intro q hq
        have hq2 : q ∈ s.activeNotes := by
          rw [activeNotes_retrigger] at hq
          exact hq
        obtain ⟨v, hv, hvid, hact, hfreq⟩ := h q hq2
        obtain ⟨v2, hv2, e1, e2, e3⟩ := stopVoice_iaf s vid now v hv
        obtain ⟨v3, hv3, g1, g2, g3⟩ :=
          startVoice_iaf (stopVoiceOscillatorQ s vid now) now vid f v2 hv2
        obtain ⟨v4, hv4, k1, k2, k3⟩ :=
          modVoice_iaf (startVoiceOscillatorQ (stopVoiceOscillatorQ s vid now) now vid f) vid
            (fun v => { v with noteStartTime := now }) (fun w => ⟨rfl, rfl, rfl⟩) v3 hv3
        refine ⟨v4, hv4, ?_, ?_, ?_⟩
        · rw [k1, g1, e1]; exact hvid
        · rw [k2, g2, e2]; exact hact
        · rw [k3, g3, e3]; exact hfreq
      · rename_i hg
        split
        · exact h
        · rename_i s1 vid ha
          -- facts about the allocated voice and intermediate state
          have hkey : ∀ q, q ∈ s1.activeNotes → q ∈ s.activeNotes ∧ q.2 ≠ vid := by
            rcases allocate_cases s now s1 vid ha with ⟨rfl, fv, hfv, hfvid, hfvact⟩ |
              ⟨ov, hov, hovid, rfl⟩
            · intro q hq
              refine ⟨hq, ?_⟩
              intro hq2
              obtain ⟨v, hv, hvid, hact, hfreq⟩ := h q hq
              have hveq : v = fv := voice_eq_of_id_eq _ hids v fv hv hfv
                (by rw [hvid, hq2, hfvid])
              rw [hveq, hfvact] at hact
              simp at hact
            · intro q hq
              unfold stealFrom at hq
              split at hq
              · rename_i oldF hovf
                have hq3 : q ∈ mapDelete s.activeNotes oldF := by
                  rw [activeNotes_triggerRelease] at hq
                  exact hq
                obtain ⟨hqMem, hqNe⟩ := mem_mapDelete _ _ _ hq3
                refine ⟨hqMem, ?_⟩
                intro hq2
                obtain ⟨v, hv, hvid, hact, hfreq⟩ := h q hqMem
                have hveq : v = ov := voice_eq_of_id_eq _ hids v ov hv hov
                  (by rw [hvid, hq2, hovid])
                rw [hveq, hovf] at hfreq
                have hof : oldF = q.1 := by injection hfreq
                exact hqNe (by rw [← hof])
              · rename_i hovf
                refine ⟨hq, ?_⟩
                intro hq2
                obtain ⟨v, hv, hvid, hact, hfreq⟩ := h q hq
                have hveq : v = ov := voice_eq_of_id_eq _ hids v ov hv hov
                  (by rw [hvid, hq2, hovid])
                rw [hveq, hovf] at hfreq
                exact Option.noConfusion hfreq
          have hvoices : ∀ v ∈ s.voices, ∃ v2 ∈ s1.voices,
              v2.id = v.id ∧ v2.active = v.active ∧ v2.frequency = v.frequency := by
            rcases allocate_cases s now s1 vid ha with ⟨rfl, _⟩ | ⟨ov, hov, hovid, rfl⟩
            · exact fun v hv => ⟨v, hv, rfl, rfl, rfl⟩
            · intro v hv
              unfold stealFrom
              split
              · exact stopVoice_iaf _ ov.id _ v hv
              · exact ⟨v, hv, rfl, rfl, rfl⟩
          have htarget : ∃ w ∈ s1.voices, w.id = vid := by
            rcases allocate_cases s now s1 vid ha with ⟨rfl, fv, hfv, hfvid, _⟩ |
              ⟨ov, hov, hovid, rfl⟩
            · exact ⟨fv, hfv, hfvid⟩
            · have hex : ∃ w ∈ (stealFrom s now ov).voices,
                  w.id = ov.id ∧ w.active = ov.active ∧ w.frequency = ov.frequency := by
                unfold stealFrom
                split
                · exact stopVoice_iaf _ ov.id _ ov hov
                · exact ⟨ov, hov, rfl, rfl, rfl⟩
              obtain ⟨w, hw, e1, _, _⟩ := hex
              exact ⟨w, hw, by rw [e1, hovid]⟩
          have hfget : mapGet s1.activeNotes f = none := by
            rcases allocate_activeNotes s now s1 vid ha with heq | ⟨oldF, heq⟩
            · rw [heq]; exact hg
            · rw [heq]; exact mapGet_delete_none _ f oldF hg
          intro q hq
          have hq2 : q ∈ s1.activeNotes ++ [(f, vid)] := by
            have hassign : (noteOnFreshAssign s1 now f vid).activeNotes
                = mapSet s1.activeNotes f vid := rfl
            rw [hassign, mapSet_of_get_none _ _ _ hfget] at hq
            exact hq
          rcases List.mem_append.mp hq2 with hqL | hqR
          · obtain ⟨hqMem, hqNe⟩ := hkey q hqL
            obtain ⟨v, hv, hvid, hact, hfreq⟩ := h q hqMem
            obtain ⟨v2, hv2, e1, e2, e3⟩ := hvoices v hv
            refine ⟨v2, freshAssign_mem_other s1 now f vid v2 hv2 ?_, ?_, ?_, ?_⟩
            · rw [e1, hvid]; exact hqNe
            · rw [e1]; exact hvid
            · rw [e2]; exact hact
            · rw [e3]; exact hfreq
          · have hqEq : q = (f, vid) := List.mem_singleton.mp hqR
            obtain ⟨w, hw, hwid⟩ := htarget
            obtain ⟨v2, hv2, e1, e2, e3⟩ := freshAssign_target_mem s1 now f vid w hw hwid
            refine ⟨v2, hv2, ?_, e2, ?_⟩
            · rw [e1, hqEq]
            · rw [e3, hqEq]

/-- Claim C3, counterexample: after `noteOn(440)` at time 0 and
`noteOff(440)` at time 1, the release-completion timer has not yet fired,
so voice 0 still carries `frequency = 440` while `activeNotes` is already
empty — the "frequency non-null iff present in the index" half of the
claimed invariant is false in this reachable state. -/
theorem C3_counterexample_release_tail_keeps_frequency :
    ¬ indexConsistencyClaim (runE (initEngine MAX_VOICES)
        [SynthEvent.noteOn 0 440 1, SynthEvent.noteOff 1 440]) := by
  intro hclaim
  obtain ⟨-, h2⟩ := hclaim
  have hmem : (⟨0, true, some 440, 0, none⟩ : Voice) ∈ (runE (initEngine MAX_VOICES)
        [SynthEvent.noteOn 0 440 1, SynthEvent.noteOff 1 440]).voices := by
    norm_num [runE, stepE, noteOnQ, noteOffQ, noteOnRetrigger, noteOnFreshAssign,
      noteOnSetup, allocateVoiceQ, stealFrom, selectOldest, triggerReleaseQ,
      stopVoiceOscillatorQ, startVoiceOscillatorQ, getVoice, modVoice, mapGet, mapSet,
      mapDelete, mapWithIndex, mapWithIndexFrom, initEngine, createVoice, List.find?,
      List.range_succ, MAX_VOICES]
  have han : (runE (initEngine MAX_VOICES)
      [SynthEvent.noteOn 0 440 1, SynthEvent.noteOff 1 440]).activeNotes = [] := by
    norm_num [runE, stepE, noteOnQ, noteOffQ, noteOnRetrigger, noteOnFreshAssign,
      noteOnSetup, allocateVoiceQ, stealFrom, selectOldest, triggerReleaseQ,
      stopVoiceOscillatorQ, startVoiceOscillatorQ, getVoice, modVoice, mapGet, mapSet,
      mapDelete, mapWithIndex, mapWithIndexFrom, initEngine, createVoice, List.find?,
      List.range_succ, MAX_VOICES]
  have hidx := (h2 _ hmem).mp (by simp)
  rw [han] at hidx
  simp at hidx

/-- Claim C3, amended: in every reachable state at most one voice is
mapped to any given frequency (the index keys are duplicate-free), and —
as long as no release-completion timer has fired — every index entry
points at an active voice whose frequency is exactly the entry's key. The
original "iff" is false: a released voice keeps its non-null frequency
until its timer fires although it has already left the index. -/
theorem C3_amended_index_invariants :
    (∀ evs, atMostOneVoicePerFreq (runE (initEngine MAX_VOICES) evs)) ∧
    (∀ evs, noTimers evs → entryConsistent (runE (initEngine MAX_VOICES) evs)) := by
  constructor
  · have hrun : ∀ (evs : List SynthEvent) (s : EngineState),
        atMostOneVoicePerFreq s → atMostOneVoicePerFreq (runE s evs) := by
      intro evs
      induction evs with
      | nil => exact fun s h => h
      | cons e evs ih => exact fun s h => ih (stepE s e) (keys_step s e h)
    intro evs
    refine hrun evs _ ?_
    show (([] : List (ℚ × Nat)).map (fun p => p.1)).Nodup
    simp
  · have hrun : ∀ (evs : List SynthEvent) (s : EngineState),
        (∀ e ∈ evs, ∀ k, e ≠ SynthEvent.releaseTimer k) →
        (s.voices.map (fun v => v.id)).Nodup →
        entryConsistent s → entryConsistent (runE s evs) := by
      intro evs
      induction evs with
      | nil => exact fun s _ _ h => h
      | cons e evs ih =>
          intro s hnt hids h
          refine ih (stepE s e) (fun e2 he2 => hnt e2 (List.mem_cons_of_mem e he2)) ?_ ?_
          · rw [stepE_map_id]
            exact hids
          · exact entry_step s e (hnt e (List.mem_cons_self e evs)) hids h
    intro evs hnt
    refine hrun evs _ ?_ ?_ ?_
    · intro e he k hek
      exact hnt k (hek ▸ he)
    · show (((List.range MAX_VOICES).map createVoice).map (fun v => v.id)).Nodup
      rw [List.map_map]
      have : (fun v => v.id) ∘ createVoice = fun i => i := rfl
      rw [this]
      simpa using List.nodup_range _
    · intro q hq
      simp [initEngine] at hq

/-- Claim C3 (amended), witness: the counterexample's own event sequence
is timer-free, and both amended invariants hold at its final state. -/
theorem C3_amended_index_invariants_witness :
    noTimers [SynthEvent.noteOn 0 440 1, SynthEvent.noteOff 1 440] ∧
    atMostOneVoicePerFreq (runE (initEngine MAX_VOICES)
      [SynthEvent.noteOn 0 440 1, SynthEvent.noteOff 1 440]) ∧
    entryConsistent (runE (initEngine MAX_VOICES)
      [SynthEvent.noteOn 0 440 1, SynthEvent.noteOff 1 440]) :=
  ⟨by intro k; simp,
    C3_amended_index_invariants.1 _,
    C3_amended_index_invariants.2 _ (by intro k; simp)⟩

/-- On a fully active pool, allocation takes the stealing branch on the
`reduce`-selected oldest voice. -/
theorem allocate_full (s : EngineState) (now : ℚ)
    (hfull : ∀ v ∈ s.voices, v.active = true) (v0 : Voice) (rest : List Voice)
    (hv : s.voices = v0 :: rest) :
    allocateVoiceQ s now
      = some (stealFrom s now (selectOldest v0 rest), (selectOldest v0 rest).id) := by
  have hfind : s.voices.find? (fun v => !v.active) = none := by
    rw [List.find?_eq_none]
    intro x hx
    simp [hfull x hx]
  unfold allocateVoiceQ
  rw [hfind, hv]

/-- Claim C4: when `noteOn` steals a voice from a full pool (the new
frequency absent, every voice active and holding a frequency, the index
consistent), the stolen voice's prior frequency is removed from the index
strictly before the new frequency is inserted: between the two mutations
the index contains neither frequency and references the stolen voice not
at all, and at every observable point of the operation the index maps at
most one frequency to the stolen voice — indeed to any voice. -/
theorem C4_steal_deletes_old_frequency_before_insert (s : EngineState) (now f vel : ℚ)
    (hfresh : mapGet s.activeNotes f = none)
    (hfull : ∀ v ∈ s.voices, v.active = true)
    (hne : s.voices ≠ [])
    (hids : (s.voices.map (fun v => v.id)).Nodup)
    (hfreqs : ∀ v ∈ s.voices, ∃ g, v.frequency = some g)
    (hec : entryConsistent s)
    (hnv : noVoiceTwice s.activeNotes) :
    ∃ ov oldF,
      allocateVoiceQ s now = some (stealFrom s now ov, ov.id) ∧
      ov ∈ s.voices ∧ ov.frequency = some oldF ∧
      noteOnQ s now f vel = noteOnFreshAssign (stealFrom s now ov) now f ov.id ∧
      (stealFrom s now ov).activeNotes = mapDelete s.activeNotes oldF ∧
      (noteOnSetup (stealFrom s now ov) now f ov.id).activeNotes
        = mapDelete s.activeNotes oldF ∧
      (startVoiceOscillatorQ (noteOnSetup (stealFrom s now ov) now f ov.id)
          now ov.id f).activeNotes = mapDelete s.activeNotes oldF ∧
      (noteOnQ s now f vel).activeNotes = mapDelete s.activeNotes oldF ++ [(f, ov.id)] ∧
      mapGet (mapDelete s.activeNotes oldF) oldF = none ∧
      mapGet (mapDelete s.activeNotes oldF) f = none ∧
      (∀ q ∈ s.activeNotes, q.2 = ov.id → q.1 = oldF) ∧
      (∀ q ∈ mapDelete s.activeNotes oldF, q.2 ≠ ov.id) ∧
      (∀ q ∈ mapDelete s.activeNotes oldF ++ [(f, ov.id)], q.2 = ov.id → q.1 = f) ∧
      noVoiceTwice (mapDelete s.activeNotes oldF) ∧
      noVoiceTwice (mapDelete s.activeNotes oldF ++ [(f, ov.id)]) := by
  rcases hv : s.voices with _ | ⟨v0, rest⟩
  · exact absurd hv hne
  · have hov : selectOldest v0 rest ∈ s.voices := by
      rw [hv]
      exact selectOldest_mem rest v0
    obtain ⟨oldF, hovf⟩ := hfreqs _ hov
    have halloc := allocate_full s now hfull v0 rest hv
    have hsteal : (stealFrom s now (selectOldest v0 rest)).activeNotes
        = mapDelete s.activeNotes oldF := by
      unfold stealFrom
      rw [hovf]
      rw [activeNotes_triggerRelease]
    have hnote : noteOnQ s now f vel
        = noteOnFreshAssign (stealFrom s now (selectOldest v0 rest)) now f
            (selectOldest v0 rest).id := by
      unfold noteOnQ
      rw [hfresh, halloc]
    have hold : ∀ q ∈ s.activeNotes, q.2 = (selectOldest v0 rest).id → q.1 = oldF := by
      intro q hq hq2
      obtain ⟨v, hvmem, hvid, hact, hfreq⟩ := hec q hq
      have hveq : v = selectOldest v0 rest :=
        voice_eq_of_id_eq s.voices hids v _ hvmem hov (by rw [hvid, hq2])
      rw [hveq, hovf] at hfreq
      injection hfreq with hfe
      exact hfe.symm
    have hdelno : ∀ q ∈ mapDelete s.activeNotes oldF, q.2 ≠ (selectOldest v0 rest).id := by
      intro q hq hq2
      obtain ⟨hqMem, hqNe⟩ := mem_mapDelete _ _ _ hq
      exact hqNe (hold q hqMem hq2)
    have hfget : mapGet (mapDelete s.activeNotes oldF) f = none :=
      mapGet_delete_none _ f oldF hfresh
    have hfinal : (noteOnQ s now f vel).activeNotes
        = mapDelete s.activeNotes oldF ++ [(f, (selectOldest v0 rest).id)] := by
      rw [hnote]
      have hassign : (noteOnFreshAssign (stealFrom s now (selectOldest v0 rest)) now f
          (selectOldest v0 rest).id).activeNotes
          = mapSet (stealFrom s now (selectOldest v0 rest)).activeNotes f
              (selectOldest v0 rest).id := rfl
      rw [hassign, hsteal, mapSet_of_get_none _ _ _ hfget]
    have hnvdel : noVoiceTwice (mapDelete s.activeNotes oldF) :=
      List.Pairwise.sublist (List.filter_sublist _) hnv
    refine ⟨selectOldest v0 rest, oldF, halloc, selectOldest_mem rest v0, hovf, hnote,
      hsteal, hsteal, hsteal,
      hfinal, mapGet_delete_self _ _, hfget, hold, hdelno, ?_, hnvdel, ?_⟩
    · intro q hq hq2
      rcases List.mem_append.mp hq with hqL | hqR
      · exact absurd hq2 (hdelno q hqL)
      · rw [List.mem_singleton.mp hqR]
    · show List.Pairwise (fun a b => a.2 ≠ b.2)
        (mapDelete s.activeNotes oldF ++ [(f, (selectOldest v0 rest).id)])
      rw [List.pairwise_append]
      refine ⟨hnvdel, List.pairwise_singleton _ _, ?_⟩
      intro a ha b hb
      rw [List.mem_singleton.mp hb]
      exact hdelno a ha

/-- Claim C4, witness: the six-note full-pool scenario at times 0..5 with
a seventh note (700) stolen at time 6: the hypotheses hold at the reached
state and the theorem's conclusion follows there. -/
theorem C4_steal_deletes_old_frequency_before_insert_witness :
    (mapGet (runE (initEngine MAX_VOICES)
      [SynthEvent.noteOn 0 100 1, SynthEvent.noteOn 1 110 1, SynthEvent.noteOn 2 120 1,
       SynthEvent.noteOn 3 130 1, SynthEvent.noteOn 4 140 1, SynthEvent.noteOn 5 150 1]).activeNotes 700 = none) ∧
    (∀ v ∈ (runE (initEngine MAX_VOICES)
      [SynthEvent.noteOn 0 100 1, SynthEvent.noteOn 1 110 1, SynthEvent.noteOn 2 120 1,
       SynthEvent.noteOn 3 130 1, SynthEvent.noteOn 4 140 1, SynthEvent.noteOn 5 150 1]).voices, v.active = true) ∧
    (∃ ov oldF,
      allocateVoiceQ (runE (initEngine MAX_VOICES)
      [SynthEvent.noteOn 0 100 1, SynthEvent.noteOn 1 110 1, SynthEvent.noteOn 2 120 1,
       SynthEvent.noteOn 3 130 1, SynthEvent.noteOn 4 140 1, SynthEvent.noteOn 5 150 1]) 6 = some (stealFrom (runE (initEngine MAX_VOICES)
      [SynthEvent.noteOn 0 100 1, SynthEvent.noteOn 1 110 1, SynthEvent.noteOn 2 120 1,
       SynthEvent.noteOn 3 130 1, SynthEvent.noteOn 4 140 1, SynthEvent.noteOn 5 150 1]) 6 ov, ov.id) ∧
      ov ∈ (runE (initEngine MAX_VOICES)
      [SynthEvent.noteOn 0 100 1, SynthEvent.noteOn 1 110 1, SynthEvent.noteOn 2 120 1,
       SynthEvent.noteOn 3 130 1, SynthEvent.noteOn 4 140 1, SynthEvent.noteOn 5 150 1]).voices ∧ ov.frequency = some oldF ∧
      noteOnQ (runE (initEngine MAX_VOICES)
      [SynthEvent.noteOn 0 100 1, SynthEvent.noteOn 1 110 1, SynthEvent.noteOn 2 120 1,
       SynthEvent.noteOn 3 130 1, SynthEvent.noteOn 4 140 1, SynthEvent.noteOn 5 150 1]) 6 700 1 = noteOnFreshAssign (stealFrom (runE (initEngine MAX_VOICES)
      [SynthEvent.noteOn 0 100 1, SynthEvent.noteOn 1 110 1, SynthEvent.noteOn 2 120 1,
       SynthEvent.noteOn 3 130 1, SynthEvent.noteOn 4 140 1, SynthEvent.noteOn 5 150 1]) 6 ov) 6 700 ov.id ∧
      (stealFrom (runE (initEngine MAX_VOICES)
      [SynthEvent.noteOn 0 100 1, SynthEvent.noteOn 1 110 1, SynthEvent.noteOn 2 120 1,
       SynthEvent.noteOn 3 130 1, SynthEvent.noteOn 4 140 1, SynthEvent.noteOn 5 150 1]) 6 ov).activeNotes = mapDelete (runE (initEngine MAX_VOICES)
      [SynthEvent.noteOn 0 100 1, SynthEvent.noteOn 1 110 1, SynthEvent.noteOn 2 120 1,
       SynthEvent.noteOn 3 130 1, SynthEvent.noteOn 4 140 1, SynthEvent.noteOn 5 150 1]).activeNotes oldF ∧
      (noteOnSetup (stealFrom (runE (initEngine MAX_VOICES)
      [SynthEvent.noteOn 0 100 1, SynthEvent.noteOn 1 110 1, SynthEvent.noteOn 2 120 1,
       SynthEvent.noteOn 3 130 1, SynthEvent.noteOn 4 140 1, SynthEvent.noteOn 5 150 1]) 6 ov) 6 700 ov.id).activeNotes
        = mapDelete (runE (initEngine MAX_VOICES)
      [SynthEvent.noteOn 0 100 1, SynthEvent.noteOn 1 110 1, SynthEvent.noteOn 2 120 1,
       SynthEvent.noteOn 3 130 1, SynthEvent.noteOn 4 140 1, SynthEvent.noteOn 5 150 1]).activeNotes oldF ∧
      (startVoiceOscillatorQ (noteOnSetup (stealFrom (runE (initEngine MAX_VOICES)
      [SynthEvent.noteOn 0 100 1, SynthEvent.noteOn 1 110 1, SynthEvent.noteOn 2 120 1,
       SynthEvent.noteOn 3 130 1, SynthEvent.noteOn 4 140 1, SynthEvent.noteOn 5 150 1]) 6 ov) 6 700 ov.id)
          6 ov.id 700).activeNotes = mapDelete (runE (initEngine MAX_VOICES)
      [SynthEvent.noteOn 0 100 1, SynthEvent.noteOn 1 110 1, SynthEvent.noteOn 2 120 1,
       SynthEvent.noteOn 3 130 1, SynthEvent.noteOn 4 140 1, SynthEvent.noteOn 5 150 1]).activeNotes oldF ∧
      (noteOnQ (runE (initEngine MAX_VOICES)
      [SynthEvent.noteOn 0 100 1, SynthEvent.noteOn 1 110 1, SynthEvent.noteOn 2 120 1,
       SynthEvent.noteOn 3 130 1, SynthEvent.noteOn 4 140 1, SynthEvent.noteOn 5 150 1]) 6 700 1).activeNotes = mapDelete (runE (initEngine MAX_VOICES)
      [SynthEvent.noteOn 0 100 1, SynthEvent.noteOn 1 110 1, SynthEvent.noteOn 2 120 1,
       SynthEvent.noteOn 3 130 1, SynthEvent.noteOn 4 140 1, SynthEvent.noteOn 5 150 1]).activeNotes oldF ++ [(700, ov.id)] ∧
      mapGet (mapDelete (runE (initEngine MAX_VOICES)
      [SynthEvent.noteOn 0 100 1, SynthEvent.noteOn 1 110 1, SynthEvent.noteOn 2 120 1,
       SynthEvent.noteOn 3 130 1, SynthEvent.noteOn 4 140 1, SynthEvent.noteOn 5 150 1]).activeNotes oldF) oldF = none ∧
      mapGet (mapDelete (runE (initEngine MAX_VOICES)
      [SynthEvent.noteOn 0 100 1, SynthEvent.noteOn 1 110 1, SynthEvent.noteOn 2 120 1,
       SynthEvent.noteOn 3 130 1, SynthEvent.noteOn 4 140 1, SynthEvent.noteOn 5 150 1]).activeNotes oldF) 700 = none ∧
      (∀ q ∈ (runE (initEngine MAX_VOICES)
      [SynthEvent.noteOn 0 100 1, SynthEvent.noteOn 1 110 1, SynthEvent.noteOn 2 120 1,
       SynthEvent.noteOn 3 130 1, SynthEvent.noteOn 4 140 1, SynthEvent.noteOn 5 150 1]).activeNotes, q.2 = ov.id → q.1 = oldF) ∧
      (∀ q ∈ mapDelete (runE (initEngine MAX_VOICES)
      [SynthEvent.noteOn 0 100 1, SynthEvent.noteOn 1 110 1, SynthEvent.noteOn 2 120 1,
       SynthEvent.noteOn 3 130 1, SynthEvent.noteOn 4 140 1, SynthEvent.noteOn 5 150 1]).activeNotes oldF, q.2 ≠ ov.id) ∧
      (∀ q ∈ mapDelete (runE (initEngine MAX_VOICES)
      [SynthEvent.noteOn 0 100 1, SynthEvent.noteOn 1 110 1, SynthEvent.noteOn 2 120 1,
       SynthEvent.noteOn 3 130 1, SynthEvent.noteOn 4 140 1, SynthEvent.noteOn 5 150 1]).activeNotes oldF ++ [(700, ov.id)], q.2 = ov.id → q.1 = 700) ∧
      noVoiceTwice (mapDelete (runE (initEngine MAX_VOICES)
      [SynthEvent.noteOn 0 100 1, SynthEvent.noteOn 1 110 1, SynthEvent.noteOn 2 120 1,
       SynthEvent.noteOn 3 130 1, SynthEvent.noteOn 4 140 1, SynthEvent.noteOn 5 150 1]).activeNotes oldF) ∧
      noVoiceTwice (mapDelete (runE (initEngine MAX_VOICES)
      [SynthEvent.noteOn 0 100 1, SynthEvent.noteOn 1 110 1, SynthEvent.noteOn 2 120 1,
       SynthEvent.noteOn 3 130 1, SynthEvent.noteOn 4 140 1, SynthEvent.noteOn 5 150 1]).activeNotes oldF ++ [(700, ov.id)])) := by
  refine ⟨?_, ?_, C4_steal_deletes_old_frequency_before_insert (runE (initEngine MAX_VOICES)
      [SynthEvent.noteOn 0 100 1, SynthEvent.noteOn 1 110 1, SynthEvent.noteOn 2 120 1,
       SynthEvent.noteOn 3 130 1, SynthEvent.noteOn 4 140 1, SynthEvent.noteOn 5 150 1]) 6 700 1
    ?_ ?_ ?_ ?_ ?_ ?_ ?_⟩ <;>
    norm_num [runE, stepE, noteOnQ, noteOffQ, noteOnRetrigger, noteOnFreshAssign,
      noteOnSetup, allocateVoiceQ, stealFrom, selectOldest, triggerReleaseQ,
      stopVoiceOscillatorQ, startVoiceOscillatorQ, getVoice, modVoice, mapGet, mapSet,
      mapDelete, mapWithIndex, mapWithIndexFrom, initEngine, createVoice, List.find?,
      List.range_succ, List.pairwise_cons, List.nodup_cons, entryConsistent, noVoiceTwice,
      MAX_VOICES] <;>
    exact List.cons_ne_nil _ _
